import Mathlib

/-!
Verification of the loan repository (Swedish mortgage simulator).

The development shallowly embeds the two core components:

* `HistoricTables` (historic_tables.py): the time-series normalizer, in
  particular `_calculate_rate_of_change`, `_expand_date_range` and the
  `standard_rate` pipeline.
* `Mortgage` (mortgage.py): the day-by-day amortization state machine,
  in particular `add_master_row` and the payment/tax/minimum-payment
  helpers.

Dates are modelled as Gregorian (year, month, day) triples; monetary
amounts and rates, which the source holds as Python floats, are modelled
as rationals (exact real arithmetic).  The two root-finding helpers
(`_calculate_daily_interest_rate`, `_calculate_rate_of_change`) are
modelled over the reals with `Real.rpow`, since their defining property
is a real `n`-th root.
-/

namespace Loan

/-- Calendar date: year, month (1-12), day (1-31). -/
structure Date where
  year : Nat
  month : Nat
  day : Nat
deriving DecidableEq, Repr

/-- Gregorian leap-year test.  Mirrors `Mortgage._is_leap_year`, which asks
whether February 29 of the year is a constructible `datetime.date`. -/
def is_leap_year (y : Nat) : Bool :=
  y % 4 == 0 && (y % 100 != 0 || y % 400 == 0)

/-- Number of days of a month in a given year. -/
def days_in_month (y m : Nat) : Nat :=
  if m = 2 then (if is_leap_year y then 29 else 28)
  else if m = 4 ∨ m = 6 ∨ m = 9 ∨ m = 11 then 30
  else 31

/-- Number of days of the year that lie strictly before month `m`. -/
def days_before_month (y m : Nat) : Nat :=
  let l : Nat := if is_leap_year y then 1 else 0
  if m ≤ 1 then 0
  else if m = 2 then 31
  else if m = 3 then 59 + l
  else if m = 4 then 90 + l
  else if m = 5 then 120 + l
  else if m = 6 then 151 + l
  else if m = 7 then 181 + l
  else if m = 8 then 212 + l
  else if m = 9 then 243 + l
  else if m = 10 then 273 + l
  else if m = 11 then 304 + l
  else 334 + l

/-- A well-formed calendar date. -/
def validDate (d : Date) : Prop :=
  1 ≤ d.year ∧ 1 ≤ d.month ∧ d.month ≤ 12 ∧ 1 ≤ d.day ∧
    d.day ≤ days_in_month d.year d.month

instance (d : Date) : Decidable (validDate d) := by
  unfold validDate; infer_instance

/-- The calendar day after `d`. -/
def next_day (d : Date) : Date :=
  if d.day < days_in_month d.year d.month then ⟨d.year, d.month, d.day + 1⟩
  else if d.month < 12 then ⟨d.year, d.month + 1, 1⟩
  else ⟨d.year + 1, 1, 1⟩

/-- Is `d` the last day of its calendar month (pandas `is_month_end`)? -/
def is_month_end (d : Date) : Bool := d.day == days_in_month d.year d.month

/-- Is `d` the first day of its calendar month (pandas `is_month_start`)? -/
def is_month_start (d : Date) : Bool := d.day == 1

/-- Is `d` January 1 (pandas `is_year_start`)? -/
def is_year_start (d : Date) : Bool := d.month == 1 && d.day == 1

/-- Number of leap years with year number strictly below `y`. -/
def leap_days_before (y : Nat) : Nat :=
  (y - 1) / 4 + (y - 1) / 400 - (y - 1) / 100

/-- Rata-die style day number of a date: days elapsed since the epoch
day 0001-01-01 (which has ordinal 0). -/
def toOrd (d : Date) : Nat :=
  365 * (d.year - 1) + leap_days_before d.year +
    days_before_month d.year d.month + (d.day - 1)

/-- Day count from `d1` to `d2`; embeds `(d2 - d1).days` on timestamps. -/
def daysBetween (d1 d2 : Date) : Nat := toOrd d2 - toOrd d1

/-! ### Time-series normalizer (historic_tables.py)

A pandas series with a `date` column and one value column is modelled as
a `List (Date × ℚ)`; a column that may hold NaN (after a left merge) is
an `Option ℚ`.  Timestamps compare chronologically, i.e. by `toOrd`. -/

/-- Python `min` over the date column (the empty case raises in Python
and is unreachable under the non-empty-series precondition). -/
def pyMinDate (l : List Date) : Date :=
  match l with
  | [] => ⟨1, 1, 1⟩
  | x :: xs => xs.foldl (fun a b => if toOrd b < toOrd a then b else a) x

/-- Python `max` over the date column. -/
def pyMaxDate (l : List Date) : Date :=
  match l with
  | [] => ⟨1, 1, 1⟩
  | x :: xs => xs.foldl (fun a b => if toOrd a < toOrd b then b else a) x

/-- `pd.date_range(d1, d2)`: one row per consecutive calendar day from
`d1` through `d2`. -/
def date_range_list (d1 d2 : Date) : List Date :=
  (List.range (toOrd d2 + 1 - toOrd d1)).map (fun i => next_day^[i] d1)

/-- The left merge (`how="left"` on the date column) of the daily spine
with the series: unmatched days get NaN. -/
def merge_left (days : List Date) (rows : List (Date × ℚ)) :
    List (Date × Option ℚ) :=
  days.map (fun d => (d, (rows.find? (fun r => r.1 == d)).map Prod.snd))

/-- One cell of pandas `ffill`: keep the value if present, otherwise
carry the last seen value. -/
def ffill_next (last v : Option ℚ) : Option ℚ :=
  match v with
  | some x => some x
  | none => last

/-- pandas `ffill` on the value column, carrying the last seen value. -/
def ffill_col (last : Option ℚ) :
    List (Date × Option ℚ) → List (Date × Option ℚ)
  | [] => []
  | (d, v) :: rest => (d, ffill_next last v) :: ffill_col (ffill_next last v) rest

/-- `HistoricTables._expand_date_range` for a series with one value
column (the shape at every call site): build the daily range between the
series' min and max date, left-merge the series onto it, forward
fill. -/
def expand_date_range (data_frame : List (Date × ℚ)) :
    List (Date × Option ℚ) :=
  ffill_col none (merge_left
    (date_range_list (pyMinDate (data_frame.map Prod.fst))
      (pyMaxDate (data_frame.map Prod.fst)))
    data_frame)

/-- Specification-side helper: the value of the last series row dated at
or before `d` (the forward-filled value in force on day `d`). -/
def last_obs (rows : List (Date × ℚ)) (d : Date) : Option ℚ :=
  ((rows.filter (fun r => toOrd r.1 ≤ toOrd d)).getLast?).map Prod.snd

/-- Specification-side helper: the value of the last series row dated
strictly before `d`. -/
def last_obs_lt (rows : List (Date × ℚ)) (d : Date) : Option ℚ :=
  ((rows.filter (fun r => toOrd r.1 < toOrd d)).getLast?).map Prod.snd

/-- Example series for witnesses: two observations three days apart. -/
def exRows : List (Date × ℚ) := [(⟨2000, 1, 1⟩, 5), (⟨2000, 1, 4⟩, 7)]

/-- Class attribute `HistoricTables._minimum_standard_rate` (0.0125). -/
def minimum_standard_rate : ℚ := 125 / 10000

/-- The clamping lambda of `HistoricTables.standard_rate`:
`minimum_standard_rate if x < minimum_standard_rate else x`. -/
def clamp_standard (x : ℚ) : ℚ :=
  if x < minimum_standard_rate then minimum_standard_rate else x

/-- The `shift(1) + 0.01` then clamp computation of
`HistoricTables.standard_rate`: each row's standard rate is derived from
the previous row's government borrowing rate (NaN for the first row and
after a NaN, modelled by `Option`). -/
def shift_clamp (prev : Option ℚ) :
    List (Date × Option ℚ) → List (Date × Option ℚ)
  | [] => []
  | (d, v) :: rest =>
      (d, prev.map (fun x => clamp_standard (x + 1/100))) :: shift_clamp v rest

/-- The rows of `HistoricTables.standard_rate` surviving `dropna` after
the date reassignment: only rows dated 30 November keep a date (1
January of the following year); rows with a NaT date or NaN standard
rate are dropped.  The reassignment and `dropna` are fused into one
`filterMap`. -/
def standard_rate_kept (gbr : List (Date × ℚ)) : List (Date × ℚ) :=
  (shift_clamp none (expand_date_range gbr)).filterMap (fun p =>
    if p.1.month = 11 ∧ p.1.day = 30 then
      p.2.map (fun v => (Date.mk (p.1.year + 1) 1 1, v))
    else none)

/-- `HistoricTables.standard_rate`: the yearly rate assignments are
expanded to daily granularity after synthesizing a terminal 31 December
row at the final year, and the rate is halved for July-December. -/
def standard_rate_table (gbr : List (Date × ℚ)) : List (Date × Option ℚ) :=
  let kept := standard_rate_kept gbr
  let max_date := pyMaxDate (kept.map Prod.fst)
  let max_rows := (kept.filter (fun r => r.1 == max_date)).map
    (fun r => (Date.mk r.1.year 12 31, r.2))
  (expand_date_range (kept ++ max_rows)).map (fun p =>
    (p.1, if 6 < p.1.month then p.2.map (fun v => v / 2) else p.2))

/-- Example government-borrowing-rate series for the standard-rate
claims: the rate changes from 5% to 10% exactly on 30 November 2000. -/
def exGbr : List (Date × ℚ) := [(⟨2000, 11, 28⟩, 5/100), (⟨2000, 11, 30⟩, 1/10)]

/-- Proof-side closed form (not from the source) of the row of
`standard_rate_kept` contributed by day `i` of the expanded series:
`none` unless day `i` is a 30 November with a predecessor row. -/
def kept_row (gbr : List (Date × ℚ)) (i : Nat) : Option (Date × ℚ) :=
  if (next_day^[i] (pyMinDate (gbr.map Prod.fst))).month = 11 ∧
      (next_day^[i] (pyMinDate (gbr.map Prod.fst))).day = 30 then
    ((if i = 0 then none else
        some ((last_obs gbr
          (next_day^[i - 1] (pyMinDate (gbr.map Prod.fst)))).getD 0)).map
      (fun x => clamp_standard (x + 1/100))).map
      (fun v =>
        (Date.mk ((next_day^[i] (pyMinDate (gbr.map Prod.fst))).year + 1) 1 1,
          v))
  else none

/-! ### Mortgage state machine (mortgage.py)

Monetary amounts and rates are rationals.  The four input arrays that
`Mortgage.__init__` extracts from `HistoricTables.main_table`
(`omxs30_change_multiplier`, `bank_rate`, `standard_rate`,
`historic_date_range`) are modelled as total functions on the index,
since `add_master_row` only ever reads them. -/

/-- One row of the `master_table` ledger. -/
structure MasterRow where
  date : Date
  principal : ℚ
  fund_value : ℚ
  current_month_interest : ℚ
  loan_payment : ℚ
  fund_investment : ℚ
  principal_fund_delta : ℚ
deriving DecidableEq, Repr

/-- The dict returned by `Mortgage.payment_split`. -/
structure Payments where
  loan_payment : ℚ
  fund_investment : ℚ
deriving DecidableEq, Repr

/-- The mutable state of a `Mortgage` instance. -/
structure Mortgage where
  asset_value : ℚ
  birth_date : Date
  current_date : Date
  household_gross_income : ℚ
  fund_value : ℚ
  initial_principal : ℚ
  principal : ℚ
  omxs30_change_multiplier : Nat → ℚ
  bank_rate : Nat → ℚ
  standard_rate : Nat → ℚ
  historic_date_range : Nat → Date
  days_offset : Nat
  payoff_time : ℚ
  fund_fee : ℚ
  fraction_invested : ℚ
  fund_tax_due : ℚ
  master_table : List MasterRow

/-- Class attribute `Mortgage._loan_to_value_cutoffs`. -/
def loan_to_value_cutoffs : List (ℚ × ℚ) := [(7/10, 2/100), (1/2, 1/100)]

/-- Class attribute `Mortgage._debt_ratio_cutoffs`. -/
def debt_ratio_cutoffs : List (ℚ × ℚ) := [(9/2, 1/100)]

/-- Class attribute `Mortgage._capital_tax_rate`. -/
def capital_tax_rate : ℚ := 3/10

/-- Class attribute `Mortgage._risk_cost_per_million_by_age_cutoffs`,
as the lookup function used by `risk_cost` (a missing key would raise
`KeyError` in Python; `rounded_age` always produces a key). -/
def risk_cost_per_million_by_age (a : Int) : ℚ :=
  if a = 20 then 7/10 else if a = 25 then 72/100 else if a = 30 then 56/100
  else if a = 35 then 72/100 else if a = 40 then 105/100
  else if a = 45 then 173/100 else if a = 50 then 294/100
  else if a = 55 then 466/100 else if a = 60 then 742/100
  else if a = 65 then 133/10 else if a = 70 then 211/10
  else if a = 75 then 3556/100 else if a = 80 then 6394/100
  else if a = 85 then 1144/10 else if a = 90 then 19642/100
  else 0

/-- Python `max` over a list; the empty case (which raises in Python)
is unreachable at all call sites, since the cutoff dicts are nonempty. -/
def pyMax (l : List ℚ) : ℚ :=
  match l with
  | [] => 0
  | x :: xs => xs.foldl max x

/-- `Mortgage._check_cutoff`: max dict value whose key is exceeded. -/
def check_cutoff (cutoff_dict : List (ℚ × ℚ)) (cutoff_value : ℚ) : ℚ :=
  pyMax (cutoff_dict.map (fun kv => if cutoff_value > kv.1 then kv.2 else 0))

/-- `Mortgage._convert_date_to_int`: MMDD integer of a date. -/
def convert_date_to_int (d : Date) : Nat := d.month * 100 + d.day

/-- `Mortgage._first_date`: index (0 or 1) of the date that comes first
within the year; `list.index(min(list))` picks index 0 on ties. -/
def first_date (date_one date_two : Date) : Nat :=
  if convert_date_to_int date_two < convert_date_to_int date_one then 1 else 0

/-- Property `Mortgage.loan_to_value_ratio`. -/
def loan_to_value_ratio (m : Mortgage) : ℚ := m.principal / m.asset_value

/-- Property `Mortgage.debt_ratio`. -/
def debt_ratio (m : Mortgage) : ℚ := m.principal / m.household_gross_income

/-- Property `Mortgage.minimum_monthly_payment`. -/
def minimum_monthly_payment (m : Mortgage) : ℚ :=
  m.initial_principal *
    max (check_cutoff loan_to_value_cutoffs (loan_to_value_ratio m))
      (check_cutoff debt_ratio_cutoffs (debt_ratio m)) / 12

/-- Property `Mortgage.age`. -/
def age (m : Mortgage) : Int :=
  (m.current_date.year : Int) - (m.birth_date.year : Int) -
    (first_date m.birth_date m.current_date : Int)

/-- Property `Mortgage.rounded_age`.  `round` is Mathlib rounding of a
rational; it can differ from Python `round` only at half-integers, and
`age / 5` is never a half-integer. -/
def rounded_age (m : Mortgage) : Int :=
  if age m < 20 then 20
  else if age m > 90 then 90
  else 5 * round ((age m : ℚ) / 5)

/-- Property `Mortgage.risk_cost`. -/
def risk_cost (m : Mortgage) : ℚ :=
  m.fund_value * risk_cost_per_million_by_age (rounded_age m) / 1000000

/-- Property `Mortgage.total_monthly_payment`. -/
def total_monthly_payment (m : Mortgage) : ℚ :=
  m.initial_principal / (m.payoff_time * 12)

/-- Property `Mortgage.payment_split`. -/
def payment_split (m : Mortgage) : Payments :=
  let fund_investment :=
    (total_monthly_payment m - minimum_monthly_payment m) * m.fraction_invested
  { loan_payment := total_monthly_payment m - fund_investment,
    fund_investment := fund_investment }

/-- Property `Mortgage.principal_fund_delta`. -/
def principal_fund_delta (m : Mortgage) : ℚ := m.principal - m.fund_value

/-- `Mortgage._standard_sum`. -/
def standard_sum (transaction_total : ℚ) (date_of_transaction : Date)
    (standard_rate : ℚ) : ℚ :=
  transaction_total / (if 7 ≤ date_of_transaction.month then 2 else 1) *
    standard_rate * capital_tax_rate

/-- Step of `add_master_row` at comment `Multiply previous principal with
daily interest rate`. -/
def interest_compounding_step (m : Mortgage) (idx : Nat) : Mortgage :=
  { m with principal := m.principal * m.bank_rate (idx - 1) }

/-- Step of `add_master_row` at comment `Deduct fund fee`. -/
def fund_fee_step (m : Mortgage) : Mortgage :=
  { m with fund_value := m.fund_value - m.fund_value * m.fund_fee / 365 }

/-- Step of `add_master_row` at comment `Multiply index fund value with
index development`.  The source guard is `not x in [0, np.inf]`; over the
rationals only the zero test is expressible, and the float guard is
modelled exactly in the `FloatVal` section below. -/
def index_step (m : Mortgage) (idx : Nat) : Mortgage :=
  { m with fund_value := m.fund_value *
      (if m.omxs30_change_multiplier (idx - 1) = 0 then 1
       else m.omxs30_change_multiplier (idx - 1)) }

/-- The `new_current_month_interest` computation of `add_master_row`:
principal change since the ledger row dated the first of the month of
`new_date`, or 0 if no such row exists. -/
def current_month_interest_calc (m : Mortgage) (new_date : Date) : ℚ :=
  match m.master_table.find? (fun r => r.date == { new_date with day := 1 }) with
  | none => 0
  | some r => m.principal - r.principal

/-- The `payments` dict of `add_master_row` after interest absorption and
the month-end zeroing. -/
def posted_payments (m : Mortgage) (new_date : Date) : Payments :=
  let p := payment_split m
  let p := { p with loan_payment :=
    p.loan_payment + current_month_interest_calc m new_date }
  if !is_month_end new_date then { loan_payment := 0, fund_investment := 0 }
  else p

/-- Step of `add_master_row` at comment `Record loan and fund payments`. -/
def payment_posting_step (m : Mortgage) (p : Payments) : Mortgage :=
  { m with principal := m.principal - p.loan_payment,
           fund_value := m.fund_value + p.fund_investment }

/-- Step of `add_master_row` at comment `Deduct risk cost from insurance`. -/
def risk_cost_step (m : Mortgage) (new_date : Date) : Mortgage :=
  if is_month_start new_date then
    { m with fund_value := m.fund_value - risk_cost m }
  else m

/-- Steps of `add_master_row` at comment `Deduct capital tax from
insurance`: accrue tax on the fund investment, on New Year also on the
whole fund, and settle on quarter-end month ends. -/
def tax_steps (m : Mortgage) (new_date : Date) (rate : ℚ)
    (fund_investment : ℚ) : Mortgage :=
  let m1 := { m with fund_tax_due :=
    m.fund_tax_due + standard_sum fund_investment new_date rate }
  let m2 := if is_year_start new_date then
      { m1 with fund_tax_due :=
        m1.fund_tax_due + standard_sum m1.fund_value new_date rate }
    else m1
  if (new_date.month = 1 ∨ new_date.month = 4 ∨ new_date.month = 7 ∨
      new_date.month = 10) ∧ is_month_end new_date then
    { m2 with fund_value := m2.fund_value - m2.fund_tax_due, fund_tax_due := 0 }
  else m2

/-- `Mortgage.add_master_row`: the per-day transition. -/
def add_master_row (m : Mortgage) : Mortgage :=
  let idx := m.master_table.length + m.days_offset
  let new_date := m.historic_date_range idx
  let m3 := index_step (fund_fee_step (interest_compounding_step m idx)) idx
  let interest := current_month_interest_calc m3 new_date
  let pays := posted_payments m3 new_date
  let m5 := payment_posting_step m3 pays
  let m6 := risk_cost_step m5 new_date
  let m9 := tax_steps m6 new_date (m.standard_rate idx) pays.fund_investment
  { m9 with master_table := m9.master_table ++
      [{ date := new_date, principal := m9.principal,
         fund_value := m9.fund_value, current_month_interest := interest,
         loan_payment := pays.loan_payment,
         fund_investment := pays.fund_investment,
         principal_fund_delta := m9.principal - m9.fund_value }] }

/-- The seed ledger row built in `Mortgage.__init__`. -/
def seed_row (d : Date) (principal : ℚ) : MasterRow :=
  { date := d
    principal := principal
    fund_value := 0
    current_month_interest := 0
    loan_payment := 0
    fund_investment := 0
    principal_fund_delta := principal - 0 }

/-- `Mortgage.__init__`: fresh state with the single seed ledger row at
`days_offset`.  `current_date` is the `datetime.now()` reading taken at
construction. -/
def init_mortgage (asset_value : ℚ) (birth_date current_date : Date)
    (household_gross_income principal payoff_time : ℚ)
    (omxs30 bank_rate standard_rate : Nat → ℚ) (dr : Nat → Date)
    (days_offset : Nat) (fund_fee fraction_invested : ℚ) : Mortgage :=
  { asset_value := asset_value
    birth_date := birth_date
    current_date := current_date
    household_gross_income := household_gross_income
    fund_value := 0
    initial_principal := principal
    principal := principal
    omxs30_change_multiplier := omxs30
    bank_rate := bank_rate
    standard_rate := standard_rate
    historic_date_range := dr
    days_offset := days_offset
    payoff_time := payoff_time
    fund_fee := fund_fee
    fraction_invested := fraction_invested
    fund_tax_due := 0
    master_table := [seed_row (dr days_offset) principal] }

/-- The intermediate state of `add_master_row` after the compounding,
fund-fee and index steps (source lines up to the interest query). -/
def step3_state (m : Mortgage) : Mortgage :=
  index_step (fund_fee_step (interest_compounding_step m
    (m.master_table.length + m.days_offset)))
    (m.master_table.length + m.days_offset)

/-- The date of the row being appended by `add_master_row`. -/
def new_row_date (m : Mortgage) : Date :=
  m.historic_date_range (m.master_table.length + m.days_offset)

/-- The state of `add_master_row` after all balance updates, just before
the new ledger row is appended. -/
def final_state (m : Mortgage) : Mortgage :=
  tax_steps
    (risk_cost_step
      (payment_posting_step (step3_state m)
        (posted_payments (step3_state m) (new_row_date m)))
      (new_row_date m))
    (new_row_date m)
    (m.standard_rate (m.master_table.length + m.days_offset))
    (posted_payments (step3_state m) (new_row_date m)).fund_investment

/-- The ledger row appended by `add_master_row`. -/
def new_row (m : Mortgage) : MasterRow :=
  { date := new_row_date m
    principal := (final_state m).principal
    fund_value := (final_state m).fund_value
    current_month_interest :=
      current_month_interest_calc (step3_state m) (new_row_date m)
    loan_payment := (posted_payments (step3_state m) (new_row_date m)).loan_payment
    fund_investment :=
      (posted_payments (step3_state m) (new_row_date m)).fund_investment
    principal_fund_delta :=
      (final_state m).principal - (final_state m).fund_value }

/-! ### Float-valued model of the index-multiplier guard

`omxs30_change_multiplier` values are floats in the source and can in
principle be `0`, `inf`, `-inf` or `nan`.  The guard in `add_master_row`
is the Python expression `x if not x in [0, np.inf] else 1`, where `in`
tests with IEEE `==` (under which `nan` compares unequal to everything,
including itself). -/

/-- An IEEE-float value: finite (modelled exactly), NaN, or an infinity. -/
inductive FloatVal where
  | fin (q : ℚ)
  | nan
  | inf
  | ninf
deriving DecidableEq, Repr

/-- Python `x in [0, np.inf]`: true iff `x == 0` or `x == np.inf` under
IEEE comparison.  NaN is unequal to everything, so it is not in the list;
neither is `-inf`. -/
def in_zero_or_inf (v : FloatVal) : Bool :=
  v == FloatVal.fin 0 || v == FloatVal.inf

/-- The multiplier actually applied to `fund_value`:
`m if not m in [0, np.inf] else 1`. -/
def effective_multiplier (v : FloatVal) : FloatVal :=
  if in_zero_or_inf v then FloatVal.fin 1 else v

/-- IEEE-754 multiplication on `FloatVal` (sign table for infinities,
NaN propagation, `0 * inf = nan`). -/
def fmul : FloatVal → FloatVal → FloatVal
  | FloatVal.nan, _ => FloatVal.nan
  | _, FloatVal.nan => FloatVal.nan
  | FloatVal.fin a, FloatVal.fin b => FloatVal.fin (a * b)
  | FloatVal.fin a, FloatVal.inf =>
      if 0 < a then FloatVal.inf else if a < 0 then FloatVal.ninf
      else FloatVal.nan
  | FloatVal.fin a, FloatVal.ninf =>
      if 0 < a then FloatVal.ninf else if a < 0 then FloatVal.inf
      else FloatVal.nan
  | FloatVal.inf, FloatVal.fin b =>
      if 0 < b then FloatVal.inf else if b < 0 then FloatVal.ninf
      else FloatVal.nan
  | FloatVal.ninf, FloatVal.fin b =>
      if 0 < b then FloatVal.ninf else if b < 0 then FloatVal.inf
      else FloatVal.nan
  | FloatVal.inf, FloatVal.inf => FloatVal.inf
  | FloatVal.inf, FloatVal.ninf => FloatVal.ninf
  | FloatVal.ninf, FloatVal.inf => FloatVal.ninf
  | FloatVal.ninf, FloatVal.ninf => FloatVal.inf

/-- The fund-value update of the index step on float values:
`fund_value * (m if not m in [0, np.inf] else 1)`. -/
def index_step_float (fund mult : FloatVal) : FloatVal :=
  fmul fund (effective_multiplier mult)

/-! ### Real-valued root helpers

`Mortgage._calculate_daily_interest_rate` and
`HistoricTables._calculate_rate_of_change` are defined by real `n`-th
roots, so they are embedded over `ℝ` with `Real.rpow`. -/

/-- `Mortgage._calculate_daily_interest_rate`: the Python bool
`_is_leap_year(year)` is coerced to 0 or 1 in the denominator. -/
noncomputable def calculate_daily_interest_rate
    (yearly_interest_rate : ℝ) (year : Nat) : ℝ :=
  (1 + yearly_interest_rate) ^
    ((1 : ℝ) / (365 + (if is_leap_year year then (1 : ℝ) else 0)))

/-- `HistoricTables._calculate_rate_of_change`. -/
noncomputable def calculate_rate_of_change
    (start_value end_value time_delta : ℝ) : ℝ :=
  (end_value / start_value) ^ ((1 : ℝ) / time_delta)

/-! ### Concrete example states (used by witnesses) -/

/-- A daily-consecutive historical date range starting at `start`. -/
def exDR (start : Date) : Nat → Date := fun n => next_day^[n] start

/-- Example mortgage: parameters follow the repository test fixture. -/
def exMortgage : Mortgage :=
  init_mortgage 20000000 ⟨2006, 9, 2⟩ ⟨2025, 1, 15⟩ 2000000 5000000 25
    (fun _ => 1) (fun _ => 1) (fun _ => 1/80) (exDR ⟨1994, 6, 1⟩) 0
    (1/250) (1/2)

/-- Example mortgage whose next simulated day is a month end. -/
def exMortgageME : Mortgage :=
  init_mortgage 20000000 ⟨2006, 9, 2⟩ ⟨2025, 1, 15⟩ 2000000 5000000 25
    (fun _ => 1) (fun _ => 1) (fun _ => 1/80) (exDR ⟨1994, 6, 29⟩) 0
    (1/250) (1/2)

/-- Example mortgage with a higher outstanding principal. -/
def exMortgageHigh : Mortgage := { exMortgage with principal := 16000000 }

/-- Example mortgage whose index multiplier array is all zero. -/
def exMortgageZero : Mortgage :=
  { exMortgage with omxs30_change_multiplier := fun _ => 0 }

/-- The intermediate state of `add_master_row` on `exMortgageME` after
compounding, fee and index steps. -/
def exM3 : Mortgage :=
  index_step (fund_fee_step (interest_compounding_step exMortgageME 1)) 1

/-- The date of the row being added by `add_master_row` on
`exMortgageME`. -/
def exND : Date := exMortgageME.historic_date_range 1

/-! ### Theorems -/

theorem one_le_days_in_month (y m : Nat) : 1 ≤ days_in_month y m := by
  unfold days_in_month; split_ifs <;> omega

theorem leap_days_before_succ (y : Nat) (hy : 1 ≤ y) :
    leap_days_before (y + 1) =
      leap_days_before y + (if is_leap_year y then 1 else 0) := by
  unfold leap_days_before is_leap_year
  simp only [Bool.and_eq_true, beq_iff_eq, Bool.or_eq_true, bne_iff_ne,
    decide_eq_true_eq]
  split_ifs with h <;> omega

theorem days_before_month_succ (y m : Nat) (h1 : 1 ≤ m) (h2 : m ≤ 11) :
    days_before_month y (m + 1) = days_before_month y m + days_in_month y m := by
  interval_cases m <;> cases h : is_leap_year y <;>
    simp [days_before_month, days_in_month, h]

theorem days_before_month_add_le (y m : Nat) (h1 : 1 ≤ m) (h2 : m ≤ 12) :
    days_before_month y m + days_in_month y m ≤
      365 + (if is_leap_year y then 1 else 0) := by
  interval_cases m <;> cases h : is_leap_year y <;>
    simp [days_before_month, days_in_month, h]

theorem days_before_month_mono (y m1 m2 : Nat) (h1 : 1 ≤ m1) (h : m1 < m2)
    (h2 : m2 ≤ 12) :
    days_before_month y m1 + days_in_month y m1 ≤ days_before_month y m2 := by
  have h1' : m1 ≤ 11 := by omega
  interval_cases m1 <;> interval_cases m2 <;> cases h : is_leap_year y <;>
    simp [days_before_month, days_in_month, h]

theorem toOrd_next_day (d : Date) (h : validDate d) :
    toOrd (next_day d) = toOrd d + 1 := by
  obtain ⟨hy, hm1, hm2, hd1, hd2⟩ := h
  unfold next_day
  split_ifs with hlt hmon
  · simp only [toOrd]; omega
  · have hday : d.day = days_in_month d.year d.month := by omega
    have hstep := days_before_month_succ d.year d.month hm1 (by omega)
    simp only [toOrd]
    have h1 := one_le_days_in_month d.year d.month
    omega
  · have hm : d.month = 12 := by omega
    have hday : d.day = 31 := by
      have h12 : days_in_month d.year 12 = 31 := by norm_num [days_in_month]
      rw [hm] at hd2 hlt; omega
    have hldb := leap_days_before_succ d.year hy
    have hdbm : days_before_month d.year d.month =
        334 + (if is_leap_year d.year then 1 else 0) := by
      rw [hm]; cases hl : is_leap_year d.year <;> simp [days_before_month, hl]
    have hdbm1 : days_before_month (d.year + 1) 1 = 0 := by
      norm_num [days_before_month]
    simp only [toOrd, hdbm1]
    cases hl : is_leap_year d.year <;> rw [hl] at hldb hdbm <;>
      simp at hldb hdbm <;> omega

theorem validDate_next_day (d : Date) (h : validDate d) :
    validDate (next_day d) := by
  obtain ⟨hy, hm1, hm2, hd1, hd2⟩ := h
  unfold next_day validDate
  split_ifs with hlt hmon <;> dsimp only <;>
    refine ⟨by omega, by omega, by omega, by omega, ?_⟩
  · omega
  · exact one_le_days_in_month d.year (d.month + 1)
  · exact one_le_days_in_month (d.year + 1) 1

theorem yearOrd_mono (y1 y2 : Nat) (h : y1 ≤ y2) :
    365 * (y1 - 1) + leap_days_before y1 ≤ 365 * (y2 - 1) + leap_days_before y2 := by
  unfold leap_days_before; omega

theorem toOrd_lt_of_year_lt (d1 d2 : Date) (h1 : validDate d1)
    (h2 : validDate d2) (h : d1.year < d2.year) : toOrd d1 < toOrd d2 := by
  obtain ⟨a0, a1, a2, a3, a4⟩ := h1
  obtain ⟨b0, b1, b2, b3, b4⟩ := h2
  have A := days_before_month_add_le d1.year d1.month a1 a2
  have B := leap_days_before_succ d1.year a0
  have C := yearOrd_mono (d1.year + 1) d2.year h
  unfold toOrd
  cases hl : is_leap_year d1.year <;> rw [hl] at A B <;> simp at A B <;> omega

theorem toOrd_lt_of_month_lt (d1 d2 : Date) (h1 : validDate d1)
    (h2 : validDate d2) (hy : d1.year = d2.year) (hm : d1.month < d2.month) :
    toOrd d1 < toOrd d2 := by
  obtain ⟨a0, a1, a2, a3, a4⟩ := h1
  obtain ⟨b0, b1, b2, b3, b4⟩ := h2
  have M := days_before_month_mono d1.year d1.month d2.month a1 hm b2
  unfold toOrd
  rw [← hy] at b4 ⊢
  omega

theorem toOrd_strict_mono (d1 d2 : Date) (h1 : validDate d1)
    (h2 : validDate d2) :
    toOrd d1 < toOrd d2 ↔
      d1.year < d2.year ∨ (d1.year = d2.year ∧ d1.month < d2.month) ∨
        (d1.year = d2.year ∧ d1.month = d2.month ∧ d1.day < d2.day) := by
  constructor
  · intro h
    rcases Nat.lt_trichotomy d1.year d2.year with hy | hy | hy
    · exact Or.inl hy
    · rcases Nat.lt_trichotomy d1.month d2.month with hm | hm | hm
      · exact Or.inr (Or.inl ⟨hy, hm⟩)
      · refine Or.inr (Or.inr ⟨hy, hm, ?_⟩)
        unfold toOrd at h
        rw [hy, hm] at h
        omega
      · exact absurd (toOrd_lt_of_month_lt d2 d1 h2 h1 hy.symm hm) (by omega)
    · exact absurd (toOrd_lt_of_year_lt d2 d1 h2 h1 hy) (by omega)
  · rintro (hy | ⟨hy, hm⟩ | ⟨hy, hm, hd⟩)
    · exact toOrd_lt_of_year_lt d1 d2 h1 h2 hy
    · exact toOrd_lt_of_month_lt d1 d2 h1 h2 hy hm
    · unfold toOrd
      rw [hy, hm]
      have := h1.2.2.2.1
      omega

@[simp] theorem interest_compounding_step_proj (m : Mortgage) (i : Nat) :
    (interest_compounding_step m i).current_date = m.current_date ∧
    (interest_compounding_step m i).birth_date = m.birth_date ∧
    (interest_compounding_step m i).master_table = m.master_table ∧
    (interest_compounding_step m i).days_offset = m.days_offset ∧
    (interest_compounding_step m i).historic_date_range =
      m.historic_date_range :=
  ⟨rfl, rfl, rfl, rfl, rfl⟩

@[simp] theorem fund_fee_step_proj (m : Mortgage) :
    (fund_fee_step m).current_date = m.current_date ∧
    (fund_fee_step m).birth_date = m.birth_date ∧
    (fund_fee_step m).master_table = m.master_table ∧
    (fund_fee_step m).days_offset = m.days_offset ∧
    (fund_fee_step m).historic_date_range = m.historic_date_range ∧
    (fund_fee_step m).principal = m.principal :=
  ⟨rfl, rfl, rfl, rfl, rfl, rfl⟩

@[simp] theorem index_step_proj (m : Mortgage) (i : Nat) :
    (index_step m i).current_date = m.current_date ∧
    (index_step m i).birth_date = m.birth_date ∧
    (index_step m i).master_table = m.master_table ∧
    (index_step m i).days_offset = m.days_offset ∧
    (index_step m i).historic_date_range = m.historic_date_range ∧
    (index_step m i).principal = m.principal :=
  ⟨rfl, rfl, rfl, rfl, rfl, rfl⟩

@[simp] theorem payment_posting_step_proj (m : Mortgage) (p : Payments) :
    (payment_posting_step m p).current_date = m.current_date ∧
    (payment_posting_step m p).birth_date = m.birth_date ∧
    (payment_posting_step m p).master_table = m.master_table ∧
    (payment_posting_step m p).days_offset = m.days_offset ∧
    (payment_posting_step m p).historic_date_range = m.historic_date_range :=
  ⟨rfl, rfl, rfl, rfl, rfl⟩

@[simp] theorem risk_cost_step_proj (m : Mortgage) (d : Date) :
    (risk_cost_step m d).current_date = m.current_date ∧
    (risk_cost_step m d).birth_date = m.birth_date ∧
    (risk_cost_step m d).master_table = m.master_table ∧
    (risk_cost_step m d).days_offset = m.days_offset ∧
    (risk_cost_step m d).historic_date_range = m.historic_date_range ∧
    (risk_cost_step m d).principal = m.principal := by
  unfold risk_cost_step
  split_ifs <;> exact ⟨rfl, rfl, rfl, rfl, rfl, rfl⟩

@[simp] theorem tax_steps_proj (m : Mortgage) (d : Date) (r f : ℚ) :
    (tax_steps m d r f).current_date = m.current_date ∧
    (tax_steps m d r f).birth_date = m.birth_date ∧
    (tax_steps m d r f).master_table = m.master_table ∧
    (tax_steps m d r f).days_offset = m.days_offset ∧
    (tax_steps m d r f).historic_date_range = m.historic_date_range ∧
    (tax_steps m d r f).principal = m.principal := by
  unfold tax_steps
  split_ifs <;> exact ⟨rfl, rfl, rfl, rfl, rfl, rfl⟩

theorem add_master_row_preserves_person (m : Mortgage) :
    (add_master_row m).current_date = m.current_date ∧
    (add_master_row m).birth_date = m.birth_date ∧
    (add_master_row m).days_offset = m.days_offset ∧
    (add_master_row m).historic_date_range = m.historic_date_range := by
  unfold add_master_row
  refine ⟨?_, ?_, ?_, ?_⟩ <;>
    simp [(tax_steps_proj _ _ _ _).1, (tax_steps_proj _ _ _ _).2.1,
      (tax_steps_proj _ _ _ _).2.2.2.1, (tax_steps_proj _ _ _ _).2.2.2.2.1,
      (risk_cost_step_proj _ _).1, (risk_cost_step_proj _ _).2.1,
      (risk_cost_step_proj _ _).2.2.2.1, (risk_cost_step_proj _ _).2.2.2.2.1]

theorem add_master_row_master_table_eq (m : Mortgage) :
    (add_master_row m).master_table = m.master_table ++
      [((add_master_row m).master_table.getLast
        (by unfold add_master_row; simp [(tax_steps_proj _ _ _ _).2.2.1]))] := by
  unfold add_master_row
  simp [(tax_steps_proj _ _ _ _).2.2.1, (risk_cost_step_proj _ _).2.2.1]

theorem toOrd_inj (d1 d2 : Date) (h1 : validDate d1) (h2 : validDate d2)
    (h : toOrd d1 = toOrd d2) : d1 = d2 := by
  have t1 := toOrd_strict_mono d1 d2 h1 h2
  have t2 := toOrd_strict_mono d2 d1 h2 h1
  obtain ⟨y1, m1, a1⟩ := d1
  obtain ⟨y2, m2, a2⟩ := d2
  simp only [Date.mk.injEq]
  by_contra hne
  rcases Nat.lt_trichotomy y1 y2 with hy | hy | hy
  · have := t1.mpr (Or.inl hy); omega
  · rcases Nat.lt_trichotomy m1 m2 with hm | hm | hm
    · have := t1.mpr (Or.inr (Or.inl ⟨hy, hm⟩)); omega
    · rcases Nat.lt_trichotomy a1 a2 with hd | hd | hd
      · have := t1.mpr (Or.inr (Or.inr ⟨hy, hm, hd⟩)); omega
      · exact hne ⟨hy, hm, hd⟩
      · have := t2.mpr (Or.inr (Or.inr ⟨hy.symm, hm.symm, hd⟩)); omega
    · have := t2.mpr (Or.inr (Or.inl ⟨hy.symm, hm⟩)); omega
  · have := t2.mpr (Or.inl hy); omega

/-- C10: the simulator's reference current date is the clock reading
taken at construction and is never advanced by `add_master_row`, so
`age`, `rounded_age` and the per-million risk-cost rate applied on
first-of-month deductions are identical on every simulated day of a run,
regardless of how many days are simulated. -/
theorem current_date_frozen (m : Mortgage) (n : Nat)
    (av : ℚ) (bd cd : Date) (hgi p pt : ℚ) (om br sr : Nat → ℚ)
    (dr : Nat → Date) (off : Nat) (ff fi : ℚ) :
    (init_mortgage av bd cd hgi p pt om br sr dr off ff fi).current_date = cd ∧
    (add_master_row^[n] m).current_date = m.current_date ∧
    age (add_master_row^[n] m) = age m ∧
    rounded_age (add_master_row^[n] m) = rounded_age m ∧
    risk_cost_per_million_by_age (rounded_age (add_master_row^[n] m)) =
      risk_cost_per_million_by_age (rounded_age m) := by
  have key : ∀ k : Nat, (add_master_row^[k] m).current_date = m.current_date ∧
      (add_master_row^[k] m).birth_date = m.birth_date := by
    intro k
    induction k with
    | zero => exact ⟨rfl, rfl⟩
    | succ k ih =>
      rw [Function.iterate_succ_apply']
      have h := add_master_row_preserves_person (add_master_row^[k] m)
      exact ⟨h.1.trans ih.1, h.2.1.trans ih.2⟩
  have hage : age (add_master_row^[n] m) = age m := by
    unfold age first_date convert_date_to_int
    rw [(key n).1, (key n).2]
  have hra : rounded_age (add_master_row^[n] m) = rounded_age m := by
    unfold rounded_age
    rw [hage]
  exact ⟨rfl, (key n).1, hage, hra, by rw [hra]⟩

theorem check_cutoff_ltv_eval (v : ℚ) :
    check_cutoff loan_to_value_cutoffs v =
      if v > 7/10 then 2/100 else if v > 1/2 then 1/100 else 0 := by
  unfold check_cutoff loan_to_value_cutoffs pyMax
  simp only [List.map_cons, List.map_nil, List.foldl_cons, List.foldl_nil]
  split_ifs <;>
    first
      | exact max_eq_left (by norm_num)
      | exact max_eq_right (by norm_num)

theorem check_cutoff_debt_eval (v : ℚ) :
    check_cutoff debt_ratio_cutoffs v = if v > 9/2 then 1/100 else 0 := by
  unfold check_cutoff debt_ratio_cutoffs pyMax
  simp only [List.map_cons, List.map_nil, List.foldl_cons, List.foldl_nil]

theorem check_cutoff_ltv_mono (v1 v2 : ℚ) (h : v1 ≤ v2) :
    check_cutoff loan_to_value_cutoffs v1 ≤
      check_cutoff loan_to_value_cutoffs v2 := by
  rw [check_cutoff_ltv_eval, check_cutoff_ltv_eval]
  split_ifs <;> linarith

theorem check_cutoff_debt_mono (v1 v2 : ℚ) (h : v1 ≤ v2) :
    check_cutoff debt_ratio_cutoffs v1 ≤ check_cutoff debt_ratio_cutoffs v2 := by
  rw [check_cutoff_debt_eval, check_cutoff_debt_eval]
  split_ifs <;> linarith

/-- C5: `minimum_monthly_payment` equals `initial_principal / 12` times
the greater of the loan-to-value floor (0.02 above 0.7, 0.01 above 0.5,
else 0) and the debt-ratio floor (0.01 above 4.5, else 0); it is
monotonically non-decreasing in the two ratios (for a non-negative
original principal), and it is 0 when both ratios are below all
thresholds. -/
theorem minimum_monthly_payment_spec (m m2 : Mortgage)
    (hp : 0 ≤ m.initial_principal)
    (hsame : m2.initial_principal = m.initial_principal)
    (hltv : loan_to_value_ratio m ≤ loan_to_value_ratio m2)
    (hdebt : debt_ratio m ≤ debt_ratio m2) :
    minimum_monthly_payment m = m.initial_principal / 12 *
      max (if loan_to_value_ratio m > 7/10 then 2/100
           else if loan_to_value_ratio m > 1/2 then 1/100 else 0)
        (if debt_ratio m > 9/2 then 1/100 else 0) ∧
    minimum_monthly_payment m ≤ minimum_monthly_payment m2 ∧
    (loan_to_value_ratio m ≤ 1/2 → debt_ratio m ≤ 9/2 →
      minimum_monthly_payment m = 0) := by
  refine ⟨?_, ?_, ?_⟩
  · unfold minimum_monthly_payment
    rw [check_cutoff_ltv_eval, check_cutoff_debt_eval]
    ring
  · have A := check_cutoff_ltv_mono _ _ hltv
    have B := check_cutoff_debt_mono _ _ hdebt
    unfold minimum_monthly_payment
    rw [hsame]
    have C := max_le_max A B
    gcongr
  · intro h1 h2
    unfold minimum_monthly_payment
    rw [check_cutoff_ltv_eval, check_cutoff_debt_eval]
    have e1 : ¬ (loan_to_value_ratio m > 7/10) := by linarith
    have e2 : ¬ (loan_to_value_ratio m > 1/2) := by linarith
    have e3 : ¬ (debt_ratio m > 9/2) := by linarith
    rw [if_neg e1, if_neg e2, if_neg e3]
    simp

/-- Witness for C5 at the concrete example states. -/
theorem minimum_monthly_payment_spec_witness :
    minimum_monthly_payment exMortgage ≤ minimum_monthly_payment exMortgageHigh ∧
    minimum_monthly_payment exMortgage = 0 :=
  ⟨(minimum_monthly_payment_spec exMortgage exMortgageHigh
      (by norm_num [exMortgage, init_mortgage])
      (by norm_num [exMortgage, exMortgageHigh, init_mortgage])
      (by norm_num [exMortgage, exMortgageHigh, init_mortgage,
        loan_to_value_ratio])
      (by norm_num [exMortgage, exMortgageHigh, init_mortgage,
        debt_ratio])).2.1,
   (minimum_monthly_payment_spec exMortgage exMortgageHigh
      (by norm_num [exMortgage, init_mortgage])
      (by norm_num [exMortgage, exMortgageHigh, init_mortgage])
      (by norm_num [exMortgage, exMortgageHigh, init_mortgage,
        loan_to_value_ratio])
      (by norm_num [exMortgage, exMortgageHigh, init_mortgage,
        debt_ratio])).2.2
      (by norm_num [exMortgage, init_mortgage, loan_to_value_ratio])
      (by norm_num [exMortgage, init_mortgage, debt_ratio])⟩

/-- C9: the `_standard_sum` helper divides transaction totals by 2 for
dates in July through December, on top of the daily table's already
halved second-half `standard_rate`; so a second-half accrual adds
`total * (annual / 2) / 2 * 0.3` (a quarter of the annual-rate-based
amount) to `fund_tax_due`, while a first-half accrual with the full
annual rate adds `total * annual * 0.3`. -/
theorem standard_sum_spec (t : ℚ) (d : Date) (annual : ℚ) :
    (7 ≤ d.month →
      standard_sum t d (annual / 2) = t * (annual / 2) / 2 * (3/10) ∧
      t * (annual / 2) / 2 * (3/10) = t * annual * (3/10) / 4) ∧
    (d.month ≤ 6 → standard_sum t d annual = t * annual * (3/10)) := by
  unfold standard_sum capital_tax_rate
  constructor
  · intro h
    rw [if_pos h]
    constructor <;> ring
  · intro h
    rw [if_neg (by omega)]
    ring

/-- Witness for C9 on concrete dates in each half-year. -/
theorem standard_sum_spec_witness :
    standard_sum 100 ⟨2000, 7, 15⟩ ((1/10) / 2) =
      100 * ((1/10) / 2) / 2 * (3/10) ∧
    standard_sum 100 ⟨2000, 3, 15⟩ (1/10) = 100 * (1/10) * (3/10) :=
  ⟨((standard_sum_spec 100 ⟨2000, 7, 15⟩ (1/10)).1 (by decide)).1,
   (standard_sum_spec 100 ⟨2000, 3, 15⟩ (1/10)).2 (by decide)⟩

/-- C6 (amended): in the per-day transition the multiplier applied to
`fund_value` is substituted with 1.0 exactly when the previous day's
`omxs30_change_multiplier` compares equal to 0 or to +inf, leaving
`fund_value` unchanged on those days; every other value — including NaN
and -inf, which the `in [0, np.inf]` test does not catch — is applied
as-is. -/
theorem index_multiplier_substitution_spec (f q : ℚ) (v : FloatVal)
    (m : Mortgage) (i : Nat) :
    (effective_multiplier (FloatVal.fin 0) = FloatVal.fin 1 ∧
     effective_multiplier FloatVal.inf = FloatVal.fin 1) ∧
    (index_step_float (FloatVal.fin f) (FloatVal.fin 0) = FloatVal.fin f ∧
     index_step_float (FloatVal.fin f) FloatVal.inf = FloatVal.fin f) ∧
    (v ≠ FloatVal.fin 0 → v ≠ FloatVal.inf →
      effective_multiplier v = v ∧
      index_step_float (FloatVal.fin f) v = fmul (FloatVal.fin f) v) ∧
    (q ≠ 0 →
      index_step_float (FloatVal.fin f) (FloatVal.fin q) =
        FloatVal.fin (f * q)) ∧
    (m.omxs30_change_multiplier (i - 1) = 0 →
      (index_step m i).fund_value = m.fund_value) := by
  refine ⟨⟨rfl, rfl⟩, ⟨?_, ?_⟩, ?_, ?_, ?_⟩
  · simp [index_step_float, effective_multiplier, in_zero_or_inf, fmul]
  · simp [index_step_float, effective_multiplier, in_zero_or_inf, fmul]
  · intro h0 hinf
    have hz : in_zero_or_inf v = false := by
      cases v <;> simp_all [in_zero_or_inf]
    exact ⟨by simp [effective_multiplier, hz],
      by simp [index_step_float, effective_multiplier, hz]⟩
  · intro hq
    simp [index_step_float, effective_multiplier, in_zero_or_inf, hq, fmul]
  · intro h
    unfold index_step
    simp [h]

/-- Witness for C6 on concrete float values and the zero-multiplier
example state. -/
theorem index_multiplier_substitution_spec_witness :
    effective_multiplier (FloatVal.fin 2) = FloatVal.fin 2 ∧
    index_step_float (FloatVal.fin 3) (FloatVal.fin 2) = FloatVal.fin (3 * 2) ∧
    (index_step exMortgageZero 1).fund_value = exMortgageZero.fund_value :=
  ⟨((index_multiplier_substitution_spec 3 2 (FloatVal.fin 2) exMortgageZero 1).2.2.1
      (by decide) (by decide)).1,
   (index_multiplier_substitution_spec 3 2 (FloatVal.fin 2) exMortgageZero 1).2.2.2.1
      (by decide),
   (index_multiplier_substitution_spec 3 2 (FloatVal.fin 2) exMortgageZero 1).2.2.2.2
      (by decide)⟩

/-- C6 counterexample: a NaN (or -inf) multiplier is not substituted
with 1.0 — it propagates into the fund value, so the claim that all
non-finite multipliers are replaced by 1.0 fails at these inputs. -/
theorem index_multiplier_substitution_counterexample :
    effective_multiplier FloatVal.nan ≠ FloatVal.fin 1 ∧
    index_step_float (FloatVal.fin 100) FloatVal.nan = FloatVal.nan ∧
    effective_multiplier FloatVal.ninf ≠ FloatVal.fin 1 ∧
    index_step_float (FloatVal.fin 100) FloatVal.ninf = FloatVal.ninf := by
  decide

/-- C4: for any annual rate r greater than -1, the daily multiplier
returned by `_calculate_daily_interest_rate` compounds over the year
length (366 in leap years, 365 otherwise) to exactly `1 + r`, in real
arithmetic. -/
theorem daily_interest_rate_compounds (r : ℝ) (y : Nat) (hr : -1 < r) :
    calculate_daily_interest_rate r y ^
      (if is_leap_year y then (366 : ℕ) else 365) = 1 + r := by
  have hx : (0 : ℝ) < 1 + r := by linarith
  have key : ∀ L : ℕ, L ≠ 0 →
      ((1 + r) ^ ((1 : ℝ) / (L : ℝ))) ^ (L : ℕ) = 1 + r := by
    intro L hL
    rw [one_div, Real.rpow_inv_natCast_pow hx.le hL]
  unfold calculate_daily_interest_rate
  cases h : is_leap_year y
  · have h365 := key 365 (by norm_num)
    norm_num at h365 ⊢
    exact h365
  · have h366 := key 366 (by norm_num)
    norm_num at h366 ⊢
    exact h366

/-- Witness for C4 at r = 1 in a leap year and a common year. -/
theorem daily_interest_rate_compounds_witness :
    calculate_daily_interest_rate 1 2024 ^
        (if is_leap_year 2024 then (366 : ℕ) else 365) = 1 + 1 ∧
    calculate_daily_interest_rate 1 2023 ^
        (if is_leap_year 2023 then (366 : ℕ) else 365) = 1 + 1 :=
  ⟨daily_interest_rate_compounds 1 2024 (by norm_num),
   daily_interest_rate_compounds 1 2023 (by norm_num)⟩

/-- C7: for positive start and end values and a positive day count,
`_calculate_rate_of_change` returns `(end / start) ^ (1 / days)`, and
this rate satisfies `start * rate ^ days = end` in real arithmetic. -/
theorem rate_of_change_spec (start_value end_value : ℝ) (days : ℕ)
    (hs : 0 < start_value) (he : 0 < end_value) (hd : 0 < days) :
    calculate_rate_of_change start_value end_value days =
      (end_value / start_value) ^ ((1 : ℝ) / days) ∧
    start_value * calculate_rate_of_change start_value end_value days ^ days =
      end_value := by
  refine ⟨rfl, ?_⟩
  unfold calculate_rate_of_change
  have hq : (0 : ℝ) ≤ end_value / start_value := by positivity
  rw [one_div, Real.rpow_inv_natCast_pow hq (by omega)]
  field_simp

/-- Witness for C7 at start 1, end 4, 2 days. -/
theorem rate_of_change_spec_witness :
    1 * calculate_rate_of_change 1 4 2 ^ 2 = 4 :=
  (rate_of_change_spec 1 4 2 one_pos (by positivity) two_pos).2

theorem add_master_row_eq (m : Mortgage) :
    add_master_row m = { final_state m with
      master_table := (final_state m).master_table ++ [new_row m] } := rfl

/-- C1: on a day that is not a calendar month end the posted payments
are 0 and posting changes neither `principal` nor `fund_value`; on a
month-end day `fund_investment` is
`(total_monthly_payment - minimum_monthly_payment) * fraction_invested`,
`loan_payment` is `total_monthly_payment - fund_investment` plus the
current month interest (so, when `0 ≤ fraction_invested ≤ 1` and the
total monthly payment is at least the minimum, the loan share is at
least `minimum_monthly_payment`), with
`total_monthly_payment = initial_principal / (payoff_time * 12)`; the
posted `loan_payment` is subtracted from `principal` and the posted
`fund_investment` added to `fund_value`, and the new ledger row records
exactly the posted amounts. -/
theorem add_master_row_payment_split_spec (m : Mortgage) :
    total_monthly_payment m = m.initial_principal / (m.payoff_time * 12) ∧
    (is_month_end (new_row_date m) = false →
      posted_payments (step3_state m) (new_row_date m) =
        { loan_payment := 0, fund_investment := 0 } ∧
      payment_posting_step (step3_state m)
        (posted_payments (step3_state m) (new_row_date m)) = step3_state m) ∧
    (is_month_end (new_row_date m) = true →
      (posted_payments (step3_state m) (new_row_date m)).fund_investment =
        (total_monthly_payment (step3_state m) -
          minimum_monthly_payment (step3_state m)) *
          (step3_state m).fraction_invested ∧
      (posted_payments (step3_state m) (new_row_date m)).loan_payment =
        total_monthly_payment (step3_state m) -
          (posted_payments (step3_state m) (new_row_date m)).fund_investment +
          current_month_interest_calc (step3_state m) (new_row_date m) ∧
      (0 ≤ (step3_state m).fraction_invested →
        (step3_state m).fraction_invested ≤ 1 →
        minimum_monthly_payment (step3_state m) ≤
          total_monthly_payment (step3_state m) →
        minimum_monthly_payment (step3_state m) ≤
          total_monthly_payment (step3_state m) -
            (posted_payments (step3_state m) (new_row_date m)).fund_investment)) ∧
    (payment_posting_step (step3_state m)
        (posted_payments (step3_state m) (new_row_date m))).principal =
      (step3_state m).principal -
        (posted_payments (step3_state m) (new_row_date m)).loan_payment ∧
    (payment_posting_step (step3_state m)
        (posted_payments (step3_state m) (new_row_date m))).fund_value =
      (step3_state m).fund_value +
        (posted_payments (step3_state m) (new_row_date m)).fund_investment ∧
    ((add_master_row m).master_table.getLast?).map
        (fun r => (r.loan_payment, r.fund_investment)) =
      some ((posted_payments (step3_state m) (new_row_date m)).loan_payment,
        (posted_payments (step3_state m) (new_row_date m)).fund_investment) := by
  refine ⟨rfl, ?_, ?_, rfl, rfl, ?_⟩
  · intro h
    have hpays : posted_payments (step3_state m) (new_row_date m) =
        { loan_payment := 0, fund_investment := 0 } := by
      simp [posted_payments, h]
    refine ⟨hpays, ?_⟩
    rw [hpays]
    simp [payment_posting_step]
  · intro h
    have hpays : posted_payments (step3_state m) (new_row_date m) =
        { loan_payment := total_monthly_payment (step3_state m) -
            (total_monthly_payment (step3_state m) -
              minimum_monthly_payment (step3_state m)) *
              (step3_state m).fraction_invested +
            current_month_interest_calc (step3_state m) (new_row_date m)
          fund_investment := (total_monthly_payment (step3_state m) -
            minimum_monthly_payment (step3_state m)) *
            (step3_state m).fraction_invested } := by
      simp [posted_payments, payment_split, h]
    rw [hpays]
    refine ⟨rfl, rfl, ?_⟩
    intro hf0 hf1 hT
    dsimp only
    nlinarith [mul_nonneg (sub_nonneg.mpr hT) (sub_nonneg.mpr hf1)]
  · rw [add_master_row_eq]
    simp [List.getLast?_concat, new_row]

theorem step3_state_master_table (m : Mortgage) :
    (step3_state m).master_table = m.master_table := by
  simp [step3_state, index_step, fund_fee_step, interest_compounding_step]

theorem final_state_master_table (m : Mortgage) :
    (final_state m).master_table = m.master_table := by
  unfold final_state
  rw [(tax_steps_proj _ _ _ _).2.2.1, (risk_cost_step_proj _ _).2.2.1,
    (payment_posting_step_proj _ _).2.2.1, step3_state_master_table]

theorem add_master_row_master_table (m : Mortgage) :
    (add_master_row m).master_table = m.master_table ++ [new_row m] := by
  rw [add_master_row_eq]
  show (final_state m).master_table ++ [new_row m] = _
  rw [final_state_master_table]

theorem replace_day_one_eq (d : Date) (h : d.day = 1) :
    { d with day := 1 } = d := by
  obtain ⟨y, mo, da⟩ := d
  simp_all

theorem current_month_interest_calc_eq_zero (s : Mortgage) (nd : Date)
    (h : ∀ r ∈ s.master_table, r.date ≠ { nd with day := 1 }) :
    current_month_interest_calc s nd = 0 := by
  unfold current_month_interest_calc
  rw [List.find?_eq_none.mpr]
  intro r hr
  simpa using h r hr

/-- Witness for C1 on the month-end example state. -/
theorem add_master_row_payment_split_spec_witness :
    (posted_payments (step3_state exMortgageME)
        (new_row_date exMortgageME)).fund_investment =
      (total_monthly_payment (step3_state exMortgageME) -
        minimum_monthly_payment (step3_state exMortgageME)) *
        (step3_state exMortgageME).fraction_invested ∧
    minimum_monthly_payment (step3_state exMortgageME) ≤
      total_monthly_payment (step3_state exMortgageME) -
        (posted_payments (step3_state exMortgageME)
          (new_row_date exMortgageME)).fund_investment := by
  have h := add_master_row_payment_split_spec exMortgageME
  have hme : is_month_end (new_row_date exMortgageME) = true := by decide
  refine ⟨(h.2.2.1 hme).1, (h.2.2.1 hme).2.2 ?_ ?_ ?_⟩
  · norm_num [step3_state, exMortgageME, init_mortgage, index_step,
      fund_fee_step, interest_compounding_step]
  · norm_num [step3_state, exMortgageME, init_mortgage, index_step,
      fund_fee_step, interest_compounding_step]
  · norm_num [minimum_monthly_payment, total_monthly_payment,
      check_cutoff_ltv_eval, check_cutoff_debt_eval, loan_to_value_ratio,
      debt_ratio, step3_state, index_step, fund_fee_step,
      interest_compounding_step, exMortgageME, init_mortgage]

/-- C3: after N calls to `add_master_row` on a freshly constructed
`Mortgage`, the ledger has exactly N+1 rows including the seed row at
`days_offset`, the date column advances by exactly one calendar day from
row to row, and `current_month_interest` is 0 on every row dated the
first of a month (given a daily-consecutive, valid historic date
range). -/
theorem master_table_append_spec
    (av : ℚ) (bd cd : Date) (hgi p pt : ℚ) (om br sr : Nat → ℚ)
    (dr : Nat → Date) (off : Nat) (ff fi : ℚ) (m0 : Mortgage) (n : Nat)
    (hm0 : m0 = init_mortgage av bd cd hgi p pt om br sr dr off ff fi)
    (hv : validDate (dr 0))
    (hc : ∀ i, dr (i + 1) = next_day (dr i)) :
    (add_master_row^[n] m0).master_table.length = n + 1 ∧
    ((add_master_row^[n] m0).master_table.get? 0).map MasterRow.date =
      some (dr off) ∧
    (∀ i, i < n →
      ((add_master_row^[n] m0).master_table.get? (i + 1)).map MasterRow.date =
        ((add_master_row^[n] m0).master_table.get? i).map
          (fun r => next_day r.date)) ∧
    (∀ r ∈ (add_master_row^[n] m0).master_table,
      is_month_start r.date = true → r.current_month_interest = 0) := by
  have hvald : ∀ i, validDate (dr i) := by
    intro i
    induction i with
    | zero => exact hv
    | succ i ih =>
      rw [hc i]
      exact validDate_next_day _ ih
  have hord : ∀ i, toOrd (dr i) = toOrd (dr 0) + i := by
    intro i
    induction i with
    | zero => rfl
    | succ i ih =>
      rw [hc i, toOrd_next_day _ (hvald i), ih]
      omega
  have hdr_ne : ∀ i j : Nat, i ≠ j → dr i ≠ dr j := by
    intro i j hij heq
    have h1 := hord i
    have h2 := hord j
    rw [heq] at h1
    omega
  have main : ∀ k : Nat,
      (add_master_row^[k] m0).master_table.length = k + 1 ∧
      (add_master_row^[k] m0).days_offset = off ∧
      (add_master_row^[k] m0).historic_date_range = dr ∧
      (∀ i, i ≤ k →
        ((add_master_row^[k] m0).master_table.get? i).map MasterRow.date =
          some (dr (off + i))) ∧
      (∀ r ∈ (add_master_row^[k] m0).master_table,
        ∃ i, i ≤ k ∧ r.date = dr (off + i)) ∧
      (∀ r ∈ (add_master_row^[k] m0).master_table,
        is_month_start r.date = true → r.current_month_interest = 0) := by
    intro k
    induction k with
    | zero =>
      subst hm0
      simp only [Function.iterate_zero_apply]
      refine ⟨rfl, rfl, rfl, ?_, ?_, ?_⟩
      · intro i hi
        have : i = 0 := by omega
        subst this
        simp [init_mortgage, seed_row]
      · intro r hr
        simp only [init_mortgage, List.mem_singleton] at hr
        exact ⟨0, le_refl 0, by rw [hr]; rfl⟩
      · intro r hr _
        simp only [init_mortgage, List.mem_singleton] at hr
        rw [hr]
        rfl
    | succ k ih =>
      obtain ⟨ih1, ih2, ih3, ih4, ih5, ih6⟩ := ih
      have hit : add_master_row^[k+1] m0 =
          add_master_row (add_master_row^[k] m0) :=
        Function.iterate_succ_apply' add_master_row k m0
      have hmt := add_master_row_master_table (add_master_row^[k] m0)
      have hnd : new_row_date (add_master_row^[k] m0) = dr (off + (k + 1)) := by
        unfold new_row_date
        rw [ih3, ih2, ih1]
        congr 1
        omega
      have hpres := add_master_row_preserves_person (add_master_row^[k] m0)
      refine ⟨?_, ?_, ?_, ?_, ?_, ?_⟩
      · rw [hit, hmt, List.length_append, ih1]
        rfl
      · rw [hit]
        exact hpres.2.2.1.trans ih2
      · rw [hit]
        exact hpres.2.2.2.trans ih3
      · intro i hi
        rw [hit, hmt]
        rcases Nat.lt_or_ge i (k + 1) with hik | hik
        · rw [List.get?_append (by rw [ih1]; omega)]
          exact ih4 i (by omega)
        · have hi1 : i = k + 1 := by omega
          subst hi1
          have hlast : ((add_master_row^[k] m0).master_table ++
              [new_row (add_master_row^[k] m0)]).get? (k + 1) =
              some (new_row (add_master_row^[k] m0)) := by
            rw [← ih1]
            exact List.get?_concat_length _ _
          rw [hlast]
          simp only [Option.map_some']
          rw [show (new_row (add_master_row^[k] m0)).date =
            new_row_date (add_master_row^[k] m0) from rfl, hnd]
      · intro r hr
        rw [hit, hmt] at hr
        rcases List.mem_append.mp hr with h | h
        · obtain ⟨i, hik, hdate⟩ := ih5 r h
          exact ⟨i, by omega, hdate⟩
        · have hrnew : r = new_row (add_master_row^[k] m0) := by simpa using h
          refine ⟨k + 1, le_refl _, ?_⟩
          rw [hrnew]
          rw [show (new_row (add_master_row^[k] m0)).date =
            new_row_date (add_master_row^[k] m0) from rfl, hnd]
      · intro r hr hms
        rw [hit, hmt] at hr
        rcases List.mem_append.mp hr with h | h
        · exact ih6 r h hms
        · have hrnew : r = new_row (add_master_row^[k] m0) := by simpa using h
          subst hrnew
          show current_month_interest_calc (step3_state (add_master_row^[k] m0))
            (new_row_date (add_master_row^[k] m0)) = 0
          apply current_month_interest_calc_eq_zero
          intro r' hr'
          rw [step3_state_master_table] at hr'
          obtain ⟨i, hik, hdate⟩ := ih5 r' hr'
          have hday1 : (new_row_date (add_master_row^[k] m0)).day = 1 := by
            have hms' : is_month_start
                (new_row_date (add_master_row^[k] m0)) = true := hms
            simpa [is_month_start] using hms'
          rw [replace_day_one_eq _ hday1, hdate, hnd]
          exact hdr_ne _ _ (by omega)
  obtain ⟨h1, h2, h3, h4, h5, h6⟩ := main n
  refine ⟨h1, ?_, ?_, h6⟩
  · have := h4 0 (Nat.zero_le n)
    simpa using this
  · intro i hi
    have ha := h4 i (by omega)
    have hb := h4 (i + 1) (by omega)
    cases hrow : (add_master_row^[n] m0).master_table.get? i with
    | none => rw [hrow] at ha; simp at ha
    | some row =>
      rw [hrow] at ha
      simp only [Option.map_some'] at ha
      rw [hb]
      simp only [Option.map_some', Option.some.injEq]
      have hrd : row.date = dr (off + i) := by simpa using ha
      rw [hrd, show off + (i + 1) = (off + i) + 1 by omega, hc (off + i)]

theorem pyMinDate_spec (l : List Date) (h : l ≠ []) :
    pyMinDate l ∈ l ∧ ∀ y ∈ l, toOrd (pyMinDate l) ≤ toOrd y := by
  match l, h with
  | x :: xs, _ =>
    induction xs generalizing x with
    | nil => simp [pyMinDate]
    | cons b xs ih =>
      have heq : pyMinDate (x :: b :: xs) =
          pyMinDate ((if toOrd b < toOrd x then b else x) :: xs) := rfl
      by_cases hbx : toOrd b < toOrd x
      · rw [heq, if_pos hbx]
        obtain ⟨ihm, ihb⟩ := ih b (by simp)
        have hle := ihb b (List.mem_cons_self _ _)
        refine ⟨?_, ?_⟩
        · rcases List.mem_cons.mp ihm with hh | hh
          · rw [hh]; simp
          · simp [List.mem_cons_of_mem, hh]
        · intro y hy
          rcases List.mem_cons.mp hy with hy | hy
          · subst hy; omega
          · exact ihb y hy
      · rw [heq, if_neg hbx]
        obtain ⟨ihm, ihb⟩ := ih x (by simp)
        have hle := ihb x (List.mem_cons_self _ _)
        refine ⟨?_, ?_⟩
        · rcases List.mem_cons.mp ihm with hh | hh
          · rw [hh]; simp
          · simp [List.mem_cons, hh]
        · intro y hy
          rcases List.mem_cons.mp hy with hy | hy
          · subst hy; exact hle
          rcases List.mem_cons.mp hy with hy | hy
          · subst hy; omega
          · exact ihb y (List.mem_cons_of_mem _ hy)

theorem pyMaxDate_spec (l : List Date) (h : l ≠ []) :
    pyMaxDate l ∈ l ∧ ∀ y ∈ l, toOrd y ≤ toOrd (pyMaxDate l) := by
  match l, h with
  | x :: xs, _ =>
    induction xs generalizing x with
    | nil => simp [pyMaxDate]
    | cons b xs ih =>
      have heq : pyMaxDate (x :: b :: xs) =
          pyMaxDate ((if toOrd x < toOrd b then b else x) :: xs) := rfl
      by_cases hbx : toOrd x < toOrd b
      · rw [heq, if_pos hbx]
        obtain ⟨ihm, ihb⟩ := ih b (by simp)
        have hle := ihb b (List.mem_cons_self _ _)
        refine ⟨?_, ?_⟩
        · rcases List.mem_cons.mp ihm with hh | hh
          · rw [hh]; simp
          · simp [List.mem_cons_of_mem, hh]
        · intro y hy
          rcases List.mem_cons.mp hy with hy | hy
          · subst hy; omega
          · exact ihb y hy
      · rw [heq, if_neg hbx]
        obtain ⟨ihm, ihb⟩ := ih x (by simp)
        have hle := ihb x (List.mem_cons_self _ _)
        refine ⟨?_, ?_⟩
        · rcases List.mem_cons.mp ihm with hh | hh
          · rw [hh]; simp
          · simp [List.mem_cons, hh]
        · intro y hy
          rcases List.mem_cons.mp hy with hy | hy
          · subst hy; exact hle
          rcases List.mem_cons.mp hy with hy | hy
          · subst hy; omega
          · exact ihb y (List.mem_cons_of_mem _ hy)

theorem pyMinDate_of_sorted (x : Date) (xs : List Date)
    (hs : (x :: xs).Pairwise (fun a b => toOrd a < toOrd b)) :
    pyMinDate (x :: xs) = x := by
  obtain ⟨hm, hb⟩ := pyMinDate_spec (x :: xs) (by simp)
  rcases List.mem_cons.mp hm with h | h
  · exact h
  · exfalso
    have h1 := hb x (List.mem_cons_self _ _)
    have h2 := (List.pairwise_cons.mp hs).1 _ h
    omega

theorem iterate_next_day_spec (d : Date) (hd : validDate d) (i : Nat) :
    validDate (next_day^[i] d) ∧ toOrd (next_day^[i] d) = toOrd d + i := by
  induction i with
  | zero => exact ⟨hd, rfl⟩
  | succ i ih =>
    rw [Function.iterate_succ_apply']
    refine ⟨validDate_next_day _ ih.1, ?_⟩
    rw [toOrd_next_day _ ih.1, ih.2]
    omega

theorem filter_le_split (rows : List (Date × ℚ)) (k : Nat)
    (hs : rows.Pairwise (fun a b => toOrd a.1 < toOrd b.1)) :
    rows.filter (fun r => toOrd r.1 ≤ k) =
      rows.filter (fun r => toOrd r.1 < k) ++
        rows.filter (fun r => toOrd r.1 = k) := by
  induction rows with
  | nil => rfl
  | cons r rest ih =>
    obtain ⟨hr, hrest⟩ := List.pairwise_cons.mp hs
    rcases Nat.lt_trichotomy (toOrd r.1) k with h | h | h
    · have e1 : toOrd r.1 ≤ k := by omega
      have e2 : ¬ (toOrd r.1 = k) := by omega
      simp [List.filter_cons, e1, h, e2, ih hrest]
    · have hgt : ∀ s ∈ rest, k < toOrd s.1 := by
        intro s hsm
        have := hr s hsm
        omega
      have f1 : rest.filter (fun r => toOrd r.1 ≤ k) = [] := by
        rw [List.filter_eq_nil]
        intro a ha
        have := hgt a ha
        simp
        omega
      have f2 : rest.filter (fun r => toOrd r.1 < k) = [] := by
        rw [List.filter_eq_nil]
        intro a ha
        have := hgt a ha
        simp
        omega
      have f3 : rest.filter (fun r => toOrd r.1 = k) = [] := by
        rw [List.filter_eq_nil]
        intro a ha
        have := hgt a ha
        simp
        omega
      have e1 : toOrd r.1 ≤ k := by omega
      have e2 : ¬ (toOrd r.1 < k) := by omega
      simp [List.filter_cons, e1, h, e2, f1, f2, f3]
    · have e1 : ¬ (toOrd r.1 ≤ k) := by omega
      have e2 : ¬ (toOrd r.1 < k) := by omega
      have e3 : ¬ (toOrd r.1 = k) := by omega
      simp [List.filter_cons, e1, e2, e3, ih hrest]

theorem filter_ord_eq_of_find?_none (rows : List (Date × ℚ)) (d : Date)
    (hvalid : ∀ r ∈ rows, validDate r.1) (hd : validDate d)
    (h : rows.find? (fun r => r.1 == d) = none) :
    rows.filter (fun r => toOrd r.1 = toOrd d) = [] := by
  rw [List.filter_eq_nil]
  intro r hr
  have hne : ¬ (r.1 == d) = true := List.find?_eq_none.mp h r hr
  simp at hne ⊢
  intro hord
  exact hne (toOrd_inj _ _ (hvalid r hr) hd hord)

theorem filter_ord_eq_of_find?_some (rows : List (Date × ℚ)) (d : Date)
    (hs : rows.Pairwise (fun a b => toOrd a.1 < toOrd b.1))
    (r : Date × ℚ) (h : rows.find? (fun r => r.1 == d) = some r) :
    rows.filter (fun r => toOrd r.1 = toOrd d) = [r] := by
  have hmem : r ∈ rows := List.mem_of_find?_eq_some h
  have heq : r.1 = d := by simpa using List.find?_some h
  have hrf : r ∈ rows.filter (fun s => toOrd s.1 = toOrd d) := by
    rw [List.mem_filter]
    exact ⟨hmem, by simp [heq]⟩
  have hlen : (rows.filter (fun s => toOrd s.1 = toOrd d)).length ≤ 1 := by
    clear hrf hmem heq h
    induction rows with
    | nil => simp
    | cons a rest ih =>
      obtain ⟨ha, hrest⟩ := List.pairwise_cons.mp hs
      by_cases hak : toOrd a.1 = toOrd d
      · have hnil : rest.filter (fun s => toOrd s.1 = toOrd d) = [] := by
          rw [List.filter_eq_nil]
          intro b hb
          have := ha b hb
          simp
          omega
        simp [List.filter_cons, hak, hnil]
      · simp [List.filter_cons, hak]
        exact ih hrest
  cases hfc : rows.filter (fun s => toOrd s.1 = toOrd d) with
  | nil =>
    rw [hfc] at hrf
    simp at hrf
  | cons a tail =>
    rw [hfc] at hrf hlen
    have htail : tail = [] := by
      cases tail with
      | nil => rfl
      | cons b t2 => simp at hlen
    subst htail
    have hra : r = a := by simpa using hrf
    rw [hra]

theorem last_obs_cases (rows : List (Date × ℚ)) (d : Date)
    (hs : rows.Pairwise (fun a b => toOrd a.1 < toOrd b.1))
    (hvalid : ∀ r ∈ rows, validDate r.1) (hd : validDate d) :
    last_obs rows d = (match rows.find? (fun r => r.1 == d) with
      | some r => some r.2
      | none => last_obs_lt rows d) := by
  cases hfind : rows.find? (fun r => r.1 == d) with
  | none =>
    unfold last_obs last_obs_lt
    rw [filter_le_split rows (toOrd d) hs,
      filter_ord_eq_of_find?_none rows d hvalid hd hfind, List.append_nil]
  | some r =>
    unfold last_obs
    rw [filter_le_split rows (toOrd d) hs,
      filter_ord_eq_of_find?_some rows d hs r hfind, List.getLast?_concat]
    rfl

theorem last_obs_lt_next_day (rows : List (Date × ℚ)) (d : Date)
    (hd : validDate d) :
    last_obs_lt rows (next_day d) = last_obs rows d := by
  unfold last_obs last_obs_lt
  have hstep : toOrd (next_day d) = toOrd d + 1 := toOrd_next_day d hd
  simp only [hstep]
  congr 1
  congr 1
  apply List.filter_congr
  intro r _
  rw [decide_eq_decide]
  omega

theorem last_obs_lt_min (rows : List (Date × ℚ)) (hne : rows ≠ []) :
    last_obs_lt rows (pyMinDate (rows.map Prod.fst)) = none := by
  unfold last_obs_lt
  rw [List.filter_eq_nil.mpr]
  · rfl
  · intro r hr
    have := (pyMinDate_spec (rows.map Prod.fst)
      (by simpa using hne)).2 r.1 (List.mem_map_of_mem _ hr)
    simp
    omega

theorem ffill_merge_spec (rows : List (Date × ℚ))
    (hs : rows.Pairwise (fun a b => toOrd a.1 < toOrd b.1))
    (hvalid : ∀ r ∈ rows, validDate r.1) :
    ∀ (n : Nat) (base : Date) (c : Option ℚ), validDate base →
      c = last_obs_lt rows base →
      ffill_col c ((List.range n).map (fun i => (next_day^[i] base,
        (rows.find? (fun r => r.1 == next_day^[i] base)).map Prod.snd))) =
      (List.range n).map (fun i => (next_day^[i] base,
        last_obs rows (next_day^[i] base))) := by
  intro n
  induction n with
  | zero => intro base c _ _; rfl
  | succ n ih =>
    intro base c hbase hc
    rw [List.range_succ_eq_map, List.map_cons, List.map_cons,
      List.map_map, List.map_map]
    simp only [Function.iterate_zero_apply, Function.comp]
    have hhead : ffill_next c
        ((rows.find? (fun r => r.1 == base)).map Prod.snd) =
        last_obs rows base := by
      rw [hc, last_obs_cases rows base hs hvalid hbase]
      cases hfind : rows.find? (fun r => r.1 == base) <;> simp [ffill_next]
    simp only [ffill_col]
    rw [hhead]
    congr 1
    have hrec := ih (next_day base) (last_obs rows base)
      (validDate_next_day base hbase)
      ((last_obs_lt_next_day rows base hbase).symm)
    simp only [← Function.iterate_succ_apply, Nat.succ_eq_add_one] at hrec
    exact hrec

theorem pyMinDate_valid (rows : List (Date × ℚ)) (hne : rows ≠ [])
    (hvalid : ∀ r ∈ rows, validDate r.1) :
    validDate (pyMinDate (rows.map Prod.fst)) := by
  have hm := (pyMinDate_spec (rows.map Prod.fst) (by simpa using hne)).1
  obtain ⟨r, hr, hrr⟩ := List.mem_map.mp hm
  exact hrr ▸ hvalid r hr

theorem pyMaxDate_valid (rows : List (Date × ℚ)) (hne : rows ≠ [])
    (hvalid : ∀ r ∈ rows, validDate r.1) :
    validDate (pyMaxDate (rows.map Prod.fst)) := by
  have hm := (pyMaxDate_spec (rows.map Prod.fst) (by simpa using hne)).1
  obtain ⟨r, hr, hrr⟩ := List.mem_map.mp hm
  exact hrr ▸ hvalid r hr

theorem min_ord_le_max_ord (rows : List (Date × ℚ)) (hne : rows ≠ []) :
    toOrd (pyMinDate (rows.map Prod.fst)) ≤
      toOrd (pyMaxDate (rows.map Prod.fst)) := by
  have hm := (pyMaxDate_spec (rows.map Prod.fst) (by simpa using hne)).1
  exact (pyMinDate_spec (rows.map Prod.fst) (by simpa using hne)).2 _ hm

theorem expand_date_range_eq (rows : List (Date × ℚ)) (hne : rows ≠ [])
    (hs : rows.Pairwise (fun a b => toOrd a.1 < toOrd b.1))
    (hvalid : ∀ r ∈ rows, validDate r.1) :
    expand_date_range rows =
      (List.range (toOrd (pyMaxDate (rows.map Prod.fst)) + 1 -
          toOrd (pyMinDate (rows.map Prod.fst)))).map
        (fun i => (next_day^[i] (pyMinDate (rows.map Prod.fst)),
          last_obs rows (next_day^[i] (pyMinDate (rows.map Prod.fst))))) := by
  unfold expand_date_range merge_left date_range_list
  rw [List.map_map]
  exact ffill_merge_spec rows hs hvalid _ _ none
    (pyMinDate_valid rows hne hvalid) (last_obs_lt_min rows hne).symm

/-- C8: for a non-empty series with unique (strictly sorted) valid
dates, `_expand_date_range` returns exactly `(max - min).days + 1` rows,
one per consecutive calendar day from the min to the max date with no
gaps or duplicates, the value column fully populated, and the row at the
range start carrying the first input row's value. -/
theorem expand_date_range_spec (rows : List (Date × ℚ)) (hne : rows ≠ [])
    (hs : rows.Pairwise (fun a b => toOrd a.1 < toOrd b.1))
    (hvalid : ∀ r ∈ rows, validDate r.1) :
    (expand_date_range rows).length =
      daysBetween (pyMinDate (rows.map Prod.fst))
        (pyMaxDate (rows.map Prod.fst)) + 1 ∧
    ((expand_date_range rows).getLast?).map Prod.fst =
      some (pyMaxDate (rows.map Prod.fst)) ∧
    (∀ i, i + 1 < (expand_date_range rows).length →
      ((expand_date_range rows).get? (i + 1)).map Prod.fst =
        ((expand_date_range rows).get? i).map (fun p => next_day p.1)) ∧
    ((expand_date_range rows).map Prod.fst).Nodup ∧
    (∀ p ∈ expand_date_range rows, p.2.isSome = true) ∧
    (expand_date_range rows).get? 0 =
      some (pyMinDate (rows.map Prod.fst), some (rows.head hne).2) := by
  have hmnv := pyMinDate_valid rows hne hvalid
  have hmxv := pyMaxDate_valid rows hne hvalid
  have hle := min_ord_le_max_ord rows hne
  have hN : toOrd (pyMaxDate (rows.map Prod.fst)) + 1 -
      toOrd (pyMinDate (rows.map Prod.fst)) =
      daysBetween (pyMinDate (rows.map Prod.fst))
        (pyMaxDate (rows.map Prod.fst)) + 1 := by
    unfold daysBetween
    omega
  have hchar := expand_date_range_eq rows hne hs hvalid
  have hlen : (expand_date_range rows).length =
      daysBetween (pyMinDate (rows.map Prod.fst))
        (pyMaxDate (rows.map Prod.fst)) + 1 := by
    rw [hchar, List.length_map, List.length_range, hN]
  have hget : ∀ i, i < (expand_date_range rows).length →
      (expand_date_range rows).get? i =
        some (next_day^[i] (pyMinDate (rows.map Prod.fst)),
          last_obs rows (next_day^[i] (pyMinDate (rows.map Prod.fst)))) := by
    intro i hi
    rw [hchar] at hi ⊢
    rw [List.get?_map, List.get?_range]
    · rfl
    · simpa using hi
  refine ⟨hlen, ?_, ?_, ?_, ?_, ?_⟩
  · rw [List.getLast?_eq_get?]
    have hlpos : 0 < (expand_date_range rows).length := by omega
    rw [hget _ (by omega)]
    simp only [Option.map_some']
    congr 1
    have hiter := iterate_next_day_spec _ hmnv
      ((expand_date_range rows).length - 1)
    apply toOrd_inj _ _ hiter.1 hmxv
    rw [hiter.2, hlen]
    unfold daysBetween
    omega
  · intro i hi
    rw [hget (i + 1) hi, hget i (by omega)]
    simp only [Option.map_some']
    rw [Function.iterate_succ_apply']
  · rw [hchar, List.map_map]
    apply List.Nodup.map_on
    · intro x hx y hy hxy
      simp only [Function.comp_apply] at hxy
      have hx' := iterate_next_day_spec _ hmnv x
      have hy' := iterate_next_day_spec _ hmnv y
      have : toOrd (next_day^[x] (pyMinDate (rows.map Prod.fst))) =
          toOrd (next_day^[y] (pyMinDate (rows.map Prod.fst))) := by
        rw [hxy]
      rw [hx'.2, hy'.2] at this
      omega
    · exact List.nodup_range _
  · intro p hp
    rw [hchar] at hp
    obtain ⟨i, hi, hpi⟩ := List.mem_map.mp hp
    rw [← hpi]
    simp only
    unfold last_obs
    rw [Option.isSome_map']
    rw [List.getLast?_isSome]
    have hm := (pyMinDate_spec (rows.map Prod.fst) (by simpa using hne)).1
    obtain ⟨r, hr, hrr⟩ := List.mem_map.mp hm
    apply List.ne_nil_of_mem (a := r)
    rw [List.mem_filter]
    refine ⟨hr, ?_⟩
    have hiter := iterate_next_day_spec _ hmnv i
    simp only [decide_eq_true_eq]
    rw [hrr, hiter.2]
    omega
  · have h0 : (expand_date_range rows).get? 0 =
        some (pyMinDate (rows.map Prod.fst),
          last_obs rows (pyMinDate (rows.map Prod.fst))) := by
      have := hget 0 (by omega)
      simpa using this
    rw [h0]
    rcases rows with _ | ⟨r0, rest⟩
    · exact absurd rfl hne
    · have hmap : (r0 :: rest).map Prod.fst = r0.1 :: rest.map Prod.fst := rfl
      have hmn : pyMinDate ((r0 :: rest).map Prod.fst) = r0.1 := by
        rw [hmap]
        apply pyMinDate_of_sorted
        rw [← hmap]
        exact (List.pairwise_map).mpr hs
      have hrest_gt : ∀ s ∈ rest, toOrd r0.1 < toOrd s.1 :=
        (List.pairwise_cons.mp hs).1
      have hfilter : (r0 :: rest).filter
          (fun r => toOrd r.1 ≤ toOrd r0.1) = [r0] := by
        have hnil : rest.filter (fun r => toOrd r.1 ≤ toOrd r0.1) = [] := by
          rw [List.filter_eq_nil]
          intro a ha
          have := hrest_gt a ha
          simp
          omega
        simp [List.filter_cons, hnil]
      have hlast : last_obs (r0 :: rest) r0.1 = some r0.2 := by
        unfold last_obs
        rw [hfilter]
        rfl
      rw [hmn, hlast]
      rfl

/-- Witness for C8 on a concrete two-row series with a three-day gap. -/
theorem expand_date_range_spec_witness :
    (expand_date_range exRows).length =
      daysBetween (pyMinDate (exRows.map Prod.fst))
        (pyMaxDate (exRows.map Prod.fst)) + 1 ∧
    (expand_date_range exRows).get? 0 =
      some (pyMinDate (exRows.map Prod.fst), some 5) :=
  ⟨(expand_date_range_spec exRows (by decide) (by decide) (by decide)).1,
   (expand_date_range_spec exRows (by decide) (by decide) (by decide)).2.2.2.2.2⟩

/-- Witness for C3 on the example state after two transitions. -/
theorem master_table_append_spec_witness :
    (add_master_row^[2] exMortgage).master_table.length = 2 + 1 :=
  (master_table_append_spec 20000000 ⟨2006, 9, 2⟩ ⟨2025, 1, 15⟩ 2000000
    5000000 25 (fun _ => 1) (fun _ => 1) (fun _ => 1/80) (exDR ⟨1994, 6, 1⟩)
    0 (1/250) (1/2) exMortgage 2 rfl (by decide)
    (fun i => Function.iterate_succ_apply' next_day i ⟨1994, 6, 1⟩)).1

theorem clamp_standard_eq_max (x : ℚ) :
    clamp_standard x = max minimum_standard_rate x := by
  unfold clamp_standard
  rcases le_or_lt minimum_standard_rate x with h | h
  · rw [if_neg (not_lt.mpr h), max_eq_right h]
  · rw [if_pos h, max_eq_left h.le]

theorem next_day_nov29 (y : Nat) : next_day ⟨y, 11, 29⟩ = ⟨y, 11, 30⟩ := by
  unfold next_day
  norm_num [days_in_month]

theorem validDate_nov29 (y : Nat) (hy : 1 ≤ y) : validDate ⟨y, 11, 29⟩ := by
  refine ⟨hy, by norm_num, by norm_num, by norm_num, ?_⟩
  norm_num [days_in_month]

theorem validDate_nov30 (y : Nat) (hy : 1 ≤ y) : validDate ⟨y, 11, 30⟩ := by
  refine ⟨hy, by norm_num, by norm_num, by norm_num, ?_⟩
  norm_num [days_in_month]

theorem validDate_jan1 (y : Nat) (hy : 1 ≤ y) : validDate ⟨y, 1, 1⟩ := by
  refine ⟨hy, by norm_num, by norm_num, by norm_num, ?_⟩
  norm_num [days_in_month]

theorem validDate_dec31 (y : Nat) (hy : 1 ≤ y) : validDate ⟨y, 12, 31⟩ := by
  refine ⟨hy, by norm_num, by norm_num, by norm_num, ?_⟩
  norm_num [days_in_month]

theorem prev_of_nov30 (x : Date) (y : Nat) (hx : validDate x)
    (h : next_day x = ⟨y, 11, 30⟩) : x = ⟨y, 11, 29⟩ := by
  have hv30 : validDate (⟨y, 11, 30⟩ : Date) := h ▸ validDate_next_day x hx
  have hy : 1 ≤ y := hv30.1
  have h29 := validDate_nov29 y hy
  apply toOrd_inj x _ hx h29
  have e1 := toOrd_next_day x hx
  have e2 := toOrd_next_day _ h29
  rw [next_day_nov29] at e2
  rw [h] at e1
  omega

theorem date_eta_nov30 (d : Date) (hm : d.month = 11) (hd : d.day = 30) :
    d = ⟨d.year, 11, 30⟩ := by
  obtain ⟨y, m, a⟩ := d
  simp_all

theorem shift_clamp_char (n : Nat) :
    ∀ (dayf : Nat → Date) (vf : Nat → ℚ) (c : Option ℚ),
      shift_clamp c ((List.range n).map (fun i => (dayf i, some (vf i)))) =
        (List.range n).map (fun i => (dayf i,
          (if i = 0 then c else some (vf (i - 1))).map
            (fun x => clamp_standard (x + 1/100)))) := by
  induction n with
  | zero => intro _ _ _; rfl
  | succ n ih =>
    intro dayf vf c
    rw [List.range_succ_eq_map, List.map_cons, List.map_cons, List.map_map,
      List.map_map]
    simp only [Function.comp_def]
    simp only [shift_clamp]
    congr 1
    rw [ih (fun i => dayf (Nat.succ i)) (fun i => vf (Nat.succ i))
      (some (vf 0))]
    apply List.map_congr_left
    intro i _
    cases i with
    | zero => simp
    | succ j => simp

theorem last_obs_isSome (rows : List (Date × ℚ)) (hne : rows ≠ []) (d : Date)
    (h : toOrd (pyMinDate (rows.map Prod.fst)) ≤ toOrd d) :
    (last_obs rows d).isSome = true := by
  unfold last_obs
  rw [Option.isSome_map', List.getLast?_isSome]
  have hm := (pyMinDate_spec (rows.map Prod.fst) (by simpa using hne)).1
  obtain ⟨r, hr, hrr⟩ := List.mem_map.mp hm
  apply List.ne_nil_of_mem (a := r)
  rw [List.mem_filter]
  refine ⟨hr, ?_⟩
  simp only [decide_eq_true_eq]
  have : toOrd r.1 = toOrd (pyMinDate (rows.map Prod.fst)) := by rw [hrr]
  omega

theorem expanded_eq_some (gbr : List (Date × ℚ)) (hne : gbr ≠ [])
    (hs : gbr.Pairwise (fun a b => toOrd a.1 < toOrd b.1))
    (hvalid : ∀ r ∈ gbr, validDate r.1) :
    expand_date_range gbr =
      (List.range (toOrd (pyMaxDate (gbr.map Prod.fst)) + 1 -
          toOrd (pyMinDate (gbr.map Prod.fst)))).map
        (fun i => (next_day^[i] (pyMinDate (gbr.map Prod.fst)),
          some ((last_obs gbr
            (next_day^[i] (pyMinDate (gbr.map Prod.fst)))).getD 0))) := by
  rw [expand_date_range_eq gbr hne hs hvalid]
  apply List.map_congr_left
  intro i _
  congr 1
  have hsome := last_obs_isSome gbr hne
    (next_day^[i] (pyMinDate (gbr.map Prod.fst))) (by
      have := (iterate_next_day_spec _ (pyMinDate_valid gbr hne hvalid) i).2
      omega)
  cases hcase : last_obs gbr (next_day^[i] (pyMinDate (gbr.map Prod.fst))) with
  | none => rw [hcase] at hsome; simp at hsome
  | some v => simp

theorem kept_eq (gbr : List (Date × ℚ)) (hne : gbr ≠ [])
    (hs : gbr.Pairwise (fun a b => toOrd a.1 < toOrd b.1))
    (hvalid : ∀ r ∈ gbr, validDate r.1) :
    standard_rate_kept gbr =
      (List.range (toOrd (pyMaxDate (gbr.map Prod.fst)) + 1 -
          toOrd (pyMinDate (gbr.map Prod.fst)))).filterMap (kept_row gbr) := by
  unfold standard_rate_kept
  rw [expanded_eq_some gbr hne hs hvalid, shift_clamp_char,
    List.filterMap_map]
  rfl

theorem kept_row_some (gbr : List (Date × ℚ)) (hne : gbr ≠ [])
    (hvalid : ∀ r ∈ gbr, validDate r.1) (i : Nat) (b : Date × ℚ)
    (h : kept_row gbr i = some b) :
    ∃ y : Nat, 1 ≤ y ∧ 1 ≤ i ∧
      next_day^[i] (pyMinDate (gbr.map Prod.fst)) = ⟨y, 11, 30⟩ ∧
      b = (⟨y + 1, 1, 1⟩,
        clamp_standard ((last_obs gbr ⟨y, 11, 29⟩).getD 0 + 1/100)) := by
  have hmnv : validDate (pyMinDate (gbr.map Prod.fst)) :=
    pyMinDate_valid gbr hne hvalid
  unfold kept_row at h
  by_cases hc : (next_day^[i] (pyMinDate (gbr.map Prod.fst))).month = 11 ∧
      (next_day^[i] (pyMinDate (gbr.map Prod.fst))).day = 30
  · rw [if_pos hc] at h
    by_cases hi : i = 0
    · subst hi
      simp at h
    · rw [if_neg hi] at h
      simp only [Option.map_some'] at h
      refine ⟨(next_day^[i] (pyMinDate (gbr.map Prod.fst))).year,
        (iterate_next_day_spec _ hmnv i).1.1, by omega,
        date_eta_nov30 _ hc.1 hc.2, ?_⟩
      have hprev : next_day^[i - 1] (pyMinDate (gbr.map Prod.fst)) =
          ⟨(next_day^[i] (pyMinDate (gbr.map Prod.fst))).year, 11, 29⟩ := by
        apply prev_of_nov30 _ _ (iterate_next_day_spec _ hmnv (i - 1)).1
        rw [← Function.iterate_succ_apply' next_day (i - 1),
          Nat.succ_eq_add_one, show i - 1 + 1 = i by omega]
        exact date_eta_nov30 _ hc.1 hc.2
      rw [hprev] at h
      exact (Option.some.injEq _ _).mp h |>.symm
  · rw [if_neg hc] at h
    exact absurd h (by simp)

theorem kept_mem (gbr : List (Date × ℚ)) (hne : gbr ≠ [])
    (hs : gbr.Pairwise (fun a b => toOrd a.1 < toOrd b.1))
    (hvalid : ∀ r ∈ gbr, validDate r.1) (b : Date × ℚ) :
    b ∈ standard_rate_kept gbr ↔
      ∃ y : Nat, 1 ≤ y ∧
        toOrd (pyMinDate (gbr.map Prod.fst)) < toOrd (⟨y, 11, 30⟩ : Date) ∧
        toOrd (⟨y, 11, 30⟩ : Date) ≤ toOrd (pyMaxDate (gbr.map Prod.fst)) ∧
        b = (⟨y + 1, 1, 1⟩,
          clamp_standard ((last_obs gbr ⟨y, 11, 29⟩).getD 0 + 1/100)) := by
  rw [kept_eq gbr hne hs hvalid, List.mem_filterMap]
  have hmnv := pyMinDate_valid gbr hne hvalid
  constructor
  · rintro ⟨i, hir, hrow⟩
    rw [List.mem_range] at hir
    obtain ⟨y, hy, hi1, hday, hb⟩ := kept_row_some gbr hne hvalid i b hrow
    have hio := (iterate_next_day_spec _ hmnv i).2
    rw [hday] at hio
    exact ⟨y, hy, by omega, by omega, hb⟩
  · rintro ⟨y, hy, hlt, hle, hb⟩
    refine ⟨toOrd (⟨y, 11, 30⟩ : Date) -
      toOrd (pyMinDate (gbr.map Prod.fst)), ?_, ?_⟩
    · rw [List.mem_range]
      omega
    · have hi1 : 1 ≤ toOrd (⟨y, 11, 30⟩ : Date) -
          toOrd (pyMinDate (gbr.map Prod.fst)) := by omega
      have hspec := iterate_next_day_spec _ hmnv
        (toOrd (⟨y, 11, 30⟩ : Date) - toOrd (pyMinDate (gbr.map Prod.fst)))
      have hdayi : next_day^[toOrd (⟨y, 11, 30⟩ : Date) -
          toOrd (pyMinDate (gbr.map Prod.fst))]
          (pyMinDate (gbr.map Prod.fst)) = ⟨y, 11, 30⟩ := by
        apply toOrd_inj _ _ hspec.1 (validDate_nov30 y hy)
        rw [hspec.2]
        omega
      have hprev : next_day^[(toOrd (⟨y, 11, 30⟩ : Date) -
          toOrd (pyMinDate (gbr.map Prod.fst))) - 1]
          (pyMinDate (gbr.map Prod.fst)) = ⟨y, 11, 29⟩ := by
        apply prev_of_nov30 _ _ (iterate_next_day_spec _ hmnv _).1
        rw [← Function.iterate_succ_apply' next_day,
          Nat.succ_eq_add_one, show
          (toOrd (⟨y, 11, 30⟩ : Date) -
            toOrd (pyMinDate (gbr.map Prod.fst))) - 1 + 1 =
          toOrd (⟨y, 11, 30⟩ : Date) -
            toOrd (pyMinDate (gbr.map Prod.fst)) by omega]
        exact hdayi
      unfold kept_row
      rw [hdayi, hprev]
      rw [if_pos (by exact ⟨rfl, rfl⟩)]
      rw [if_neg (by omega)]
      simp only [Option.map_some']
      rw [hb]

theorem kept_sorted (gbr : List (Date × ℚ)) (hne : gbr ≠ [])
    (hs : gbr.Pairwise (fun a b => toOrd a.1 < toOrd b.1))
    (hvalid : ∀ r ∈ gbr, validDate r.1) :
    (standard_rate_kept gbr).Pairwise (fun a b => toOrd a.1 < toOrd b.1) := by
  rw [kept_eq gbr hne hs hvalid, List.pairwise_filterMap]
  have hmnv := pyMinDate_valid gbr hne hvalid
  refine List.Pairwise.imp ?_ (List.pairwise_lt_range _)
  intro i j hij b hb b' hb'
  obtain ⟨y, hy, hi1, hday, hbeq⟩ :=
    kept_row_some gbr hne hvalid i b (by simpa using hb)
  obtain ⟨y', hy', hj1, hday', hbeq'⟩ :=
    kept_row_some gbr hne hvalid j b' (by simpa using hb')
  have hio := (iterate_next_day_spec _ hmnv i).2
  have hjo := (iterate_next_day_spec _ hmnv j).2
  rw [hday] at hio
  rw [hday'] at hjo
  have hyy : y < y' := by
    by_contra hcon
    push_neg at hcon
    rcases Nat.eq_or_lt_of_le hcon with he | hl
    · rw [he] at hjo
      omega
    · have := toOrd_lt_of_year_lt ⟨y', 11, 30⟩ ⟨y, 11, 30⟩
        (validDate_nov30 y' hy') (validDate_nov30 y hy) hl
      omega
  rw [hbeq, hbeq']
  exact toOrd_lt_of_year_lt _ _ (validDate_jan1 _ (by omega))
    (validDate_jan1 _ (by omega)) (by simpa using Nat.succ_lt_succ hyy)

theorem sorted_getLast_ub {α : Type} (key : α → Nat) (l : List α) :
    ∀ (h : l ≠ []), l.Pairwise (fun a b => key a < key b) →
      ∀ y ∈ l, y = l.getLast h ∨ key y < key (l.getLast h) := by
  induction l with
  | nil => intro h; exact absurd rfl h
  | cons a rest ih =>
    intro h hs y hy
    by_cases hrn : rest = []
    · subst hrn
      simp at hy
      left
      rw [hy, List.getLast_singleton]
    · rw [List.getLast_cons hrn]
      obtain ⟨ha, hrest⟩ := List.pairwise_cons.mp hs
      rcases List.mem_cons.mp hy with hya | hyr
      · right
        rw [hya]
        exact ha _ (List.getLast_mem hrn)
      · exact ih hrn hrest y hyr

theorem pyMaxDate_of_sorted (l : List Date) (h : l ≠ [])
    (hs : l.Pairwise (fun a b => toOrd a < toOrd b)) :
    pyMaxDate l = l.getLast h := by
  obtain ⟨hm, hb⟩ := pyMaxDate_spec l h
  rcases sorted_getLast_ub toOrd l h hs _ hm with he | hlt
  · exact he
  · exfalso
    have := hb (l.getLast h) (List.getLast_mem h)
    omega

theorem getLast_map_fst (l : List (Date × ℚ)) (h : l ≠ []) :
    (l.map Prod.fst).getLast (by simpa using h) = (l.getLast h).1 := by
  have h1 := List.getLast?_eq_getLast (l.map Prod.fst) (by simpa using h)
  rw [List.getLast?_map, List.getLast?_eq_getLast l h] at h1
  simpa using h1.symm

theorem filter_beq_getLast (l : List (Date × ℚ)) :
    ∀ (h : l ≠ []), l.Pairwise (fun a b => toOrd a.1 < toOrd b.1) →
      l.filter (fun r => r.1 == (l.getLast h).1) = [l.getLast h] := by
  induction l with
  | nil => intro h; exact absurd rfl h
  | cons a rest ih =>
    intro h hs
    by_cases hrn : rest = []
    · subst hrn
      simp [List.filter_cons, List.getLast_singleton]
    · have hlast : (a :: rest).getLast h = rest.getLast hrn :=
        List.getLast_cons hrn
      obtain ⟨ha, hrest⟩ := List.pairwise_cons.mp hs
      have hna : ¬ (a.1 == (rest.getLast hrn).1) = true := by
        simp only [beq_iff_eq]
        intro heq
        have hcontra := ha _ (List.getLast_mem hrn)
        rw [heq] at hcontra
        omega
      rw [hlast, @List.filter_cons_of_neg _
        (fun r => r.1 == (rest.getLast hrn).1) a rest hna]
      exact ih hrn hrest

theorem getLast_filter_sorted {α : Type} (key : α → Nat) (k : Nat) (r : α) :
    ∀ (l : List α), l.Pairwise (fun a b => key a < key b) → r ∈ l →
      key r ≤ k → (∀ s ∈ l, key s ≤ k → key s ≤ key r) →
      (l.filter (fun s => key s ≤ k)).getLast? = some r := by
  intro l
  induction l with
  | nil =>
    intro _ hr
    simp at hr
  | cons a rest ih =>
    intro hs hr hrk hmax
    obtain ⟨ha, hrest⟩ := List.pairwise_cons.mp hs
    rcases List.mem_cons.mp hr with hra | hrr
    · have hnil : rest.filter (fun s => key s ≤ k) = [] := by
        rw [List.filter_eq_nil]
        intro s hsm
        simp only [decide_eq_true_eq]
        intro hsk
        have h1 := hmax s (List.mem_cons_of_mem _ hsm) hsk
        have h2 := ha s hsm
        rw [← hra] at h2
        omega
      rw [List.filter_cons_of_pos (by simpa using hra ▸ hrk), hnil, ← hra]
      rfl
    · have hka : key a < key r := ha r hrr
      have hne2 : rest.filter (fun s => key s ≤ k) ≠ [] :=
        List.ne_nil_of_mem (List.mem_filter.mpr ⟨hrr, by simpa using hrk⟩)
      have hfr := ih hrest hrr hrk
        (fun s hsm hsk => hmax s (List.mem_cons_of_mem _ hsm) hsk)
      cases hfc : rest.filter (fun s => key s ≤ k) with
      | nil => exact absurd hfc hne2
      | cons b t =>
        rw [List.filter_cons_of_pos (by simp; omega), hfc,
          List.getLast?_cons_cons, ← hfc]
        exact hfr

theorem ord_year_bounds (d : Date) (h : validDate d) :
    toOrd ⟨d.year, 1, 1⟩ ≤ toOrd d ∧ toOrd d ≤ toOrd ⟨d.year, 12, 31⟩ := by
  obtain ⟨hy, hm1, hm2, hd1, hd2⟩ := h
  have A := days_before_month_add_le d.year d.month hm1 hm2
  have hdbm1 : days_before_month d.year 1 = 0 := by
    norm_num [days_before_month]
  have hdbm12 : days_before_month d.year 12 =
      334 + (if is_leap_year d.year then 1 else 0) := by
    cases hl : is_leap_year d.year <;> simp [days_before_month, hl]
  unfold toOrd
  cases hl : is_leap_year d.year <;> rw [hl] at A hdbm12 <;>
    simp at A hdbm12 <;> simp [hdbm1, hdbm12] <;> omega

theorem year_le_of_ord_le (d1 d2 : Date) (h1 : validDate d1)
    (h2 : validDate d2) (h : toOrd d1 ≤ toOrd d2) : d1.year ≤ d2.year := by
  by_contra hcon
  push_neg at hcon
  have := toOrd_lt_of_year_lt d2 d1 h2 h1 hcon
  omega

theorem ord_jan1_le (y1 y2 : Nat) (h1 : 1 ≤ y1) (h : y1 ≤ y2) :
    toOrd ⟨y1, 1, 1⟩ ≤ toOrd ⟨y2, 1, 1⟩ := by
  rcases Nat.eq_or_lt_of_le h with he | hl
  · rw [he]
  · exact (toOrd_lt_of_year_lt _ _ (validDate_jan1 y1 h1)
      (validDate_jan1 y2 (by omega)) hl).le

theorem ord_nov30_le (y1 y2 : Nat) (h1 : 1 ≤ y1) (h : y1 ≤ y2) :
    toOrd ⟨y1, 11, 30⟩ ≤ toOrd ⟨y2, 11, 30⟩ := by
  rcases Nat.eq_or_lt_of_le h with he | hl
  · rw [he]
  · exact (toOrd_lt_of_year_lt _ _ (validDate_nov30 y1 h1)
      (validDate_nov30 y2 (by omega)) hl).le

/-- An element computed as the head of a list is a member of it. -/
theorem mem_of_head_some {α : Type} {l : List α} {a : α}
    (h : l.head? = some a) : a ∈ l := by
  cases l with
  | nil => exact absurd h (by simp)
  | cons b t =>
      have hb : b = a := by simpa using h
      rw [← hb]
      exact List.mem_cons_self _ _

/-- C2 (amended): for every day of the standard-rate table, the value
for a day in January through June of year Y is
`max(0.0125, r + 0.01)` where `r` is the government borrowing rate in
force on 29 November (the day before 30 November) of year Y-1 — the
`shift(1)` applied after daily expansion reads the previous calendar
day's rate — and the value for July through December is exactly half
that. -/
theorem standard_rate_schedule_spec (gbr : List (Date × ℚ)) (hne : gbr ≠ [])
    (hs : gbr.Pairwise (fun a b => toOrd a.1 < toOrd b.1))
    (hvalid : ∀ r ∈ gbr, validDate r.1)
    (hk : standard_rate_kept gbr ≠ []) :
    ∀ p ∈ standard_rate_table gbr,
      p.2 = some (if 6 < p.1.month
        then max minimum_standard_rate
          ((last_obs gbr ⟨p.1.year - 1, 11, 29⟩).getD 0 + 1/100) / 2
        else max minimum_standard_rate
          ((last_obs gbr ⟨p.1.year - 1, 11, 29⟩).getD 0 + 1/100)) := by
  have hksorted := kept_sorted gbr hne hs hvalid
  have hkform : ∀ b ∈ standard_rate_kept gbr, ∃ y : Nat, 1 ≤ y ∧
      toOrd (pyMinDate (gbr.map Prod.fst)) < toOrd (⟨y, 11, 30⟩ : Date) ∧
      toOrd (⟨y, 11, 30⟩ : Date) ≤ toOrd (pyMaxDate (gbr.map Prod.fst)) ∧
      b = (⟨y + 1, 1, 1⟩,
        clamp_standard ((last_obs gbr ⟨y, 11, 29⟩).getD 0 + 1/100)) :=
    fun b hb => (kept_mem gbr hne hs hvalid b).mp hb
  obtain ⟨yL, hyL, hLlt, hLle, hLform⟩ := hkform _ (List.getLast_mem hk)
  have hklast1 : ((standard_rate_kept gbr).getLast hk).1 =
      ⟨yL + 1, 1, 1⟩ := by rw [hLform]
  have hklast2 : ((standard_rate_kept gbr).getLast hk).2 =
      clamp_standard ((last_obs gbr ⟨yL, 11, 29⟩).getD 0 + 1/100) := by
    rw [hLform]
  have hkm_ne : (standard_rate_kept gbr).map Prod.fst ≠ [] := by
    simpa using hk
  have hkm_sorted : ((standard_rate_kept gbr).map Prod.fst).Pairwise
      (fun a b => toOrd a < toOrd b) := List.pairwise_map.mpr hksorted
  have hmaxd : pyMaxDate ((standard_rate_kept gbr).map Prod.fst) =
      ((standard_rate_kept gbr).getLast hk).1 := by
    rw [pyMaxDate_of_sorted _ hkm_ne hkm_sorted]
    exact getLast_map_fst _ hk
  have hfilter_max : (standard_rate_kept gbr).filter
      (fun r => r.1 == pyMaxDate ((standard_rate_kept gbr).map Prod.fst)) =
      [(standard_rate_kept gbr).getLast hk] := by
    simp only [hmaxd]
    exact filter_beq_getLast _ hk hksorted
  have htable : standard_rate_table gbr =
      (expand_date_range (standard_rate_kept gbr ++
        [((⟨yL + 1, 12, 31⟩ : Date), clamp_standard
          ((last_obs gbr ⟨yL, 11, 29⟩).getD 0 + 1/100))])).map
        (fun p => (p.1, if 6 < p.1.month then p.2.map (fun v => v / 2)
          else p.2)) := by
    unfold standard_rate_table
    dsimp only
    rw [hfilter_max]
    rw [List.map_cons, List.map_nil, hklast1, hklast2]
  have hterm_valid : validDate (⟨yL + 1, 12, 31⟩ : Date) :=
    validDate_dec31 _ (by omega)
  have hjan_lt_dec : ∀ y : Nat, 1 ≤ y →
      toOrd (⟨y, 1, 1⟩ : Date) < toOrd (⟨yL + 1, 12, 31⟩ : Date) →
        True := fun _ _ _ => trivial
  have htog_ne : standard_rate_kept gbr ++
      [((⟨yL + 1, 12, 31⟩ : Date), clamp_standard
        ((last_obs gbr ⟨yL, 11, 29⟩).getD 0 + 1/100))] ≠ [] := by simp
  have hlast_lt_term :
      toOrd ((standard_rate_kept gbr).getLast hk).1 <
        toOrd (⟨yL + 1, 12, 31⟩ : Date) := by
    rw [hklast1]
    exact toOrd_lt_of_month_lt _ _ (validDate_jan1 _ (by omega)) hterm_valid
      rfl (by norm_num)
  have htog_sorted : (standard_rate_kept gbr ++
      [((⟨yL + 1, 12, 31⟩ : Date), clamp_standard
        ((last_obs gbr ⟨yL, 11, 29⟩).getD 0 + 1/100))]).Pairwise
      (fun a b => toOrd a.1 < toOrd b.1) := by
    rw [List.pairwise_append]
    refine ⟨hksorted, List.pairwise_singleton _ _, ?_⟩
    intro a ha b hb
    simp only [List.mem_singleton] at hb
    rw [hb]
    show toOrd a.1 < toOrd (⟨yL + 1, 12, 31⟩ : Date)
    rcases sorted_getLast_ub (fun r => toOrd r.1) (standard_rate_kept gbr)
      hk hksorted a ha with he | hlt
    · rw [he]
      exact hlast_lt_term
    · omega
  have htog_valid : ∀ r ∈ standard_rate_kept gbr ++
      [((⟨yL + 1, 12, 31⟩ : Date), clamp_standard
        ((last_obs gbr ⟨yL, 11, 29⟩).getD 0 + 1/100))], validDate r.1 := by
    intro r hr
    rcases List.mem_append.mp hr with h | h
    · obtain ⟨y, hy, _, _, hform⟩ := hkform r h
      rw [hform]
      exact validDate_jan1 _ (by omega)
    · simp only [List.mem_singleton] at h
      rw [h]
      exact hterm_valid
  obtain ⟨k0, krest, hk0⟩ : ∃ a l, standard_rate_kept gbr = a :: l := by
    cases hcc : standard_rate_kept gbr with
    | nil => exact absurd hcc hk
    | cons a l => exact ⟨a, l, rfl⟩
  obtain ⟨y0, hy0, h0lt, h0le, h0form⟩ := hkform k0
    (by rw [hk0]; exact List.mem_cons_self _ _)
  have hk01 : k0.1 = ⟨y0 + 1, 1, 1⟩ := by rw [h0form]
  have hy0L : y0 ≤ yL := by
    rcases sorted_getLast_ub (fun r => toOrd r.1) (standard_rate_kept gbr)
      hk hksorted k0 (by rw [hk0]; exact List.mem_cons_self _ _) with he | hlt
    · have h1 : k0.1 = ((standard_rate_kept gbr).getLast hk).1 := by rw [he]
      rw [hk01, hklast1] at h1
      have h2 : y0 + 1 = yL + 1 := congrArg Date.year h1
      omega
    · rw [hk01, hklast1] at hlt
      have h1 := year_le_of_ord_le ⟨y0 + 1, 1, 1⟩ ⟨yL + 1, 1, 1⟩
        (validDate_jan1 _ (by omega)) (validDate_jan1 _ (by omega))
        (le_of_lt hlt)
      have h2 : y0 + 1 ≤ yL + 1 := h1
      omega
  have hmnT : pyMinDate ((standard_rate_kept gbr ++
      [((⟨yL + 1, 12, 31⟩ : Date), clamp_standard
        ((last_obs gbr ⟨yL, 11, 29⟩).getD 0 + 1/100))]).map Prod.fst) =
      k0.1 := by
    rw [hk0, List.cons_append, List.map_cons]
    apply pyMinDate_of_sorted
    rw [← List.map_cons, ← List.cons_append, ← hk0]
    exact List.pairwise_map.mpr htog_sorted
  have hmnTv : validDate (pyMinDate ((standard_rate_kept gbr ++
      [((⟨yL + 1, 12, 31⟩ : Date), clamp_standard
        ((last_obs gbr ⟨yL, 11, 29⟩).getD 0 + 1/100))]).map Prod.fst)) := by
    rw [hmnT, hk01]
    exact validDate_jan1 _ (by omega)
  have hgl := @List.getLast_concat (Date × ℚ)
    ((⟨yL + 1, 12, 31⟩ : Date), clamp_standard
      ((last_obs gbr ⟨yL, 11, 29⟩).getD 0 + 1/100)) (standard_rate_kept gbr)
  have hmxT : pyMaxDate ((standard_rate_kept gbr ++
      [((⟨yL + 1, 12, 31⟩ : Date), clamp_standard
        ((last_obs gbr ⟨yL, 11, 29⟩).getD 0 + 1/100))]).map Prod.fst) =
      (⟨yL + 1, 12, 31⟩ : Date) := by
    rw [pyMaxDate_of_sorted _ (by simpa using htog_ne)
      (List.pairwise_map.mpr htog_sorted), getLast_map_fst _ htog_ne, hgl]
  have hchar := expand_date_range_eq _ htog_ne htog_sorted htog_valid
  intro p hp
  rw [htable, hchar, List.map_map] at hp
  obtain ⟨i, hir, hpi⟩ := List.mem_map.mp hp
  rw [List.mem_range, hmxT, hmnT] at hir
  have hiter := iterate_next_day_spec _ hmnTv i
  have hdayup : toOrd (next_day^[i] (pyMinDate ((standard_rate_kept gbr ++
      [((⟨yL + 1, 12, 31⟩ : Date), clamp_standard
        ((last_obs gbr ⟨yL, 11, 29⟩).getD 0 + 1/100))]).map Prod.fst))) ≤
      toOrd (⟨yL + 1, 12, 31⟩ : Date) := by
    rw [hiter.2, hmnT]
    omega
  have hdaydown : toOrd k0.1 ≤
      toOrd (next_day^[i] (pyMinDate ((standard_rate_kept gbr ++
      [((⟨yL + 1, 12, 31⟩ : Date), clamp_standard
        ((last_obs gbr ⟨yL, 11, 29⟩).getD 0 + 1/100))]).map Prod.fst))) := by
    rw [hiter.2, hmnT]
    omega
  have hyup : (next_day^[i] (pyMinDate ((standard_rate_kept gbr ++
      [((⟨yL + 1, 12, 31⟩ : Date), clamp_standard
        ((last_obs gbr ⟨yL, 11, 29⟩).getD 0 + 1/100))]).map Prod.fst))).year ≤
      yL + 1 := by
    simpa using year_le_of_ord_le _ _ hiter.1 hterm_valid hdayup
  have hydown : y0 + 1 ≤ (next_day^[i] (pyMinDate ((standard_rate_kept gbr ++
      [((⟨yL + 1, 12, 31⟩ : Date), clamp_standard
        ((last_obs gbr ⟨yL, 11, 29⟩).getD 0 + 1/100))]).map Prod.fst))).year := by
    have h1 := year_le_of_ord_le _ _
      (by rw [hk01]; exact validDate_jan1 _ (by omega)) hiter.1 hdaydown
    rw [hk01] at h1
    simpa using h1
  set dayi := next_day^[i] (pyMinDate ((standard_rate_kept gbr ++
      [((⟨yL + 1, 12, 31⟩ : Date), clamp_standard
        ((last_obs gbr ⟨yL, 11, 29⟩).getD 0 + 1/100))]).map Prod.fst))
    with hdayidef
  have hyY : 1 ≤ dayi.year - 1 := by omega
  have hPlow : toOrd (pyMinDate (gbr.map Prod.fst)) <
      toOrd (⟨dayi.year - 1, 11, 30⟩ : Date) := by
    have h1 := ord_nov30_le y0 (dayi.year - 1) hy0 (by omega)
    omega
  have hPhigh : toOrd (⟨dayi.year - 1, 11, 30⟩ : Date) ≤
      toOrd (pyMaxDate (gbr.map Prod.fst)) := by
    have h1 := ord_nov30_le (dayi.year - 1) yL (by omega) (by omega)
    omega
  have hrstar : ((⟨dayi.year, 1, 1⟩ : Date),
      clamp_standard ((last_obs gbr
        ⟨dayi.year - 1, 11, 29⟩).getD 0 + 1/100)) ∈
      standard_rate_kept gbr := by
    have h1 := (kept_mem gbr hne hs hvalid _).mpr
      ⟨dayi.year - 1, hyY, hPlow, hPhigh, rfl⟩
    rw [show dayi.year - 1 + 1 = dayi.year by omega] at h1
    exact h1
  have hlo : last_obs (standard_rate_kept gbr ++
      [((⟨yL + 1, 12, 31⟩ : Date), clamp_standard
        ((last_obs gbr ⟨yL, 11, 29⟩).getD 0 + 1/100))]) dayi =
      some (clamp_standard ((last_obs gbr
        ⟨dayi.year - 1, 11, 29⟩).getD 0 + 1/100)) := by
    by_cases hterm_day : toOrd dayi = toOrd (⟨yL + 1, 12, 31⟩ : Date)
    · have hdeq : dayi = ⟨yL + 1, 12, 31⟩ :=
        toOrd_inj _ _ hiter.1 hterm_valid hterm_day
      show ((standard_rate_kept gbr ++
          [((⟨yL + 1, 12, 31⟩ : Date), clamp_standard
            ((last_obs gbr ⟨yL, 11, 29⟩).getD 0 + 1/100))]).filter
          (fun r => toOrd r.1 ≤ toOrd dayi)).getLast?.map Prod.snd =
        some (clamp_standard ((last_obs gbr
          ⟨dayi.year - 1, 11, 29⟩).getD 0 + 1/100))
      have hfilter_all : (standard_rate_kept gbr ++
          [((⟨yL + 1, 12, 31⟩ : Date), clamp_standard
            ((last_obs gbr ⟨yL, 11, 29⟩).getD 0 + 1/100))]).filter
          (fun r => toOrd r.1 ≤ toOrd dayi) =
          standard_rate_kept gbr ++
          [((⟨yL + 1, 12, 31⟩ : Date), clamp_standard
            ((last_obs gbr ⟨yL, 11, 29⟩).getD 0 + 1/100))] := by
        rw [List.filter_eq_self]
        intro a ha
        simp only [decide_eq_true_eq]
        rcases sorted_getLast_ub (fun r => toOrd r.1) _ htog_ne htog_sorted
          a ha with he | hlt
        · rw [he, hgl]
          show toOrd (⟨yL + 1, 12, 31⟩ : Date) ≤ toOrd dayi
          omega
        · rw [hgl] at hlt
          have hterm1 : toOrd (((⟨yL + 1, 12, 31⟩ : Date), clamp_standard
              ((last_obs gbr ⟨yL, 11, 29⟩).getD 0 + 1/100)) :
              Date × ℚ).1 = toOrd (⟨yL + 1, 12, 31⟩ : Date) := rfl
          rw [hterm1] at hlt
          omega
      rw [hfilter_all, List.getLast?_concat]
      have hyeq : dayi.year - 1 = yL := by
        rw [hdeq]
        rfl
      rw [hyeq]
      rfl
    · show ((standard_rate_kept gbr ++
          [((⟨yL + 1, 12, 31⟩ : Date), clamp_standard
            ((last_obs gbr ⟨yL, 11, 29⟩).getD 0 + 1/100))]).filter
          (fun r => toOrd r.1 ≤ toOrd dayi)).getLast?.map Prod.snd =
        some (clamp_standard ((last_obs gbr
          ⟨dayi.year - 1, 11, 29⟩).getD 0 + 1/100))
      rw [getLast_filter_sorted (fun r => toOrd r.1) (toOrd dayi)
        (((⟨dayi.year, 1, 1⟩ : Date), clamp_standard ((last_obs gbr
          ⟨dayi.year - 1, 11, 29⟩).getD 0 + 1/100))) _ htog_sorted
        (List.mem_append_left _ hrstar)
        (by
          show toOrd (⟨dayi.year, 1, 1⟩ : Date) ≤ toOrd dayi
          exact (ord_year_bounds dayi hiter.1).1)
        (by
          intro s hsm hsk
          rcases List.mem_append.mp hsm with h | h
          · obtain ⟨ys, hys, _, _, hsform⟩ := hkform s h
            have hsk1 : toOrd s.1 ≤ toOrd dayi := hsk
            have hs1 : s.1 = ⟨ys + 1, 1, 1⟩ := by rw [hsform]
            rw [hs1] at hsk1
            show toOrd s.1 ≤
              toOrd ((⟨dayi.year, 1, 1⟩ : Date))
            rw [hs1]
            have hysy : ys + 1 ≤ dayi.year := by
              have := year_le_of_ord_le ⟨ys + 1, 1, 1⟩ dayi
                (validDate_jan1 _ (by omega)) hiter.1 hsk1
              simpa using this
            exact ord_jan1_le _ _ (by omega) hysy
          · simp only [List.mem_singleton] at h
            exfalso
            have hsk1 : toOrd s.1 ≤ toOrd dayi := hsk
            rw [h] at hsk1
            have hsk2 : toOrd (⟨yL + 1, 12, 31⟩ : Date) ≤ toOrd dayi := hsk1
            omega)]
      rfl
  rw [← hpi]
  simp only [Function.comp_apply]
  rw [← hdayidef]
  show (if 6 < dayi.month then (last_obs _ dayi).map (fun v => v / 2)
    else last_obs _ dayi) = _
  rw [hlo, clamp_standard_eq_max]
  by_cases hm6 : 6 < dayi.month
  · rw [if_pos hm6, if_pos hm6]
    simp
  · rw [if_neg hm6, if_neg hm6]

/-- C2 counterexample to the original wording: in the table built from
the example series whose government borrowing rate changes from 5% to
10% exactly on 30 November 2000, the standard rate for 1 January 2001
is max(0.0125, 0.05 + 0.01) = 0.06 — derived from the rate in force on
29 November 2000 — and not max(0.0125, 0.10 + 0.01) = 0.11 as the rate
in force on 30 November 2000 would give. -/
theorem standard_rate_schedule_counterexample :
    ∃ p ∈ standard_rate_table exGbr,
      p.1 = ⟨2001, 1, 1⟩ ∧
      (last_obs exGbr ⟨2000, 11, 30⟩).getD 0 = 1/10 ∧
      p.2 ≠ some (max minimum_standard_rate
        ((last_obs exGbr ⟨2000, 11, 30⟩).getD 0 + 1/100)) := by
  refine ⟨((⟨2001, 1, 1⟩ : Date), some (clamp_standard (5/100 + 1/100))),
    ?_, rfl, rfl, ?_⟩
  · exact mem_of_head_some rfl
  · show some (clamp_standard (5/100 + 1/100)) ≠ _
    rw [clamp_standard_eq_max]
    intro hcon
    have h2 := Option.some.inj hcon
    have e1 : max minimum_standard_rate (5/100 + 1/100 : ℚ) = 6/100 := by
      rw [show (5/100 + 1/100 : ℚ) = 6/100 by norm_num]
      exact max_eq_right (by norm_num [minimum_standard_rate])
    have e2 : max minimum_standard_rate
        ((last_obs exGbr ⟨2000, 11, 30⟩).getD 0 + 1/100) = 11/100 := by
      have hl : (last_obs exGbr ⟨2000, 11, 30⟩).getD 0 = (1/10 : ℚ) := rfl
      rw [hl, show (1/10 + 1/100 : ℚ) = 11/100 by norm_num]
      exact max_eq_right (by norm_num [minimum_standard_rate])
    rw [e1, e2] at h2
    norm_num at h2

/-- Witness for C2: the amended schedule theorem applied to the example
government-borrowing-rate series, its hypotheses discharged by
evaluation. -/
theorem standard_rate_schedule_spec_witness :
    (exGbr ≠ [] ∧ exGbr.Pairwise (fun a b => toOrd a.1 < toOrd b.1) ∧
      (∀ r ∈ exGbr, validDate r.1) ∧ standard_rate_kept exGbr ≠ []) ∧
    ∀ p ∈ standard_rate_table exGbr,
      p.2 = some (if 6 < p.1.month
        then max minimum_standard_rate
          ((last_obs exGbr ⟨p.1.year - 1, 11, 29⟩).getD 0 + 1/100) / 2
        else max minimum_standard_rate
          ((last_obs exGbr ⟨p.1.year - 1, 11, 29⟩).getD 0 + 1/100)) :=
  ⟨⟨by decide, by decide, by decide, by decide⟩,
    standard_rate_schedule_spec exGbr (by decide) (by decide) (by decide)
      (by decide)⟩

end Loan
